import Mathlib

/-!
Shallow embedding of the `program_arguments` C library
(`program_arguments.h` / `program_arguments.c`): a command-line argument
parser with a definition registry, a left-to-right parse loop over the
argument vector, lazily validated results, and type-specific accessors.

Modelling conventions:
* C pointers that may be NULL become `Option`; fallible calls that return
  `-1` become `Option`/`Except` results.
* The C `int` is modelled as unbounded `Int` (the library performs no
  arithmetic that could overflow on realistic inputs); the C `float` value
  is modelled as `CFloat`: an exact rational for finite values (the
  library only stores and returns float values, it never computes with
  them, so double-to-float rounding is irrelevant to the claims) together
  with the infinities and NaN that `atof` can produce.
* The parser struct's capacity bookkeeping (`definition_capacity`,
  `positional_capacity`, `realloc` growth) and allocation failure paths are
  memory-management details with no observable effect on the values the
  claims speak about; the arrays are modelled as Lean lists.
* `arg_result_t.definition` is a pointer into the parallel `definitions`
  array (`results[i].definition = &definitions[i]`), so a result is
  identified with its index `i` into both lists.
* A validator is a C function pointer that may consult external mutable
  state, so its outcome may differ between invocations.  It is modelled as
  a function of the invocation index (0 for the first call, 1 for the
  second, ...); the ghost field `validator_calls` counts the invocations,
  which is exactly the call counter the specification asks tests to
  instrument.  The bounded stderr buffer handed to the validator is
  modelled by the `String` the validator returns as written buffer
  content.
* Diagnostics printed to `stderr` by `validate_result` are collected in
  the ghost field `stderr_log`.
-/

namespace ProgArgs

/-- The `arg_type_t` enum. -/
inductive ArgType : Type
  | flag
  | string
  | int
  | float
deriving DecidableEq, Repr

/-- The C `float` value: an exact rational when finite (no claim ever
compares two non-zero finite coerced values, so the double-to-float
rounding of `(float)atof(...)` is not modelled), or one of the
non-finite values `atof`/`strtod` can produce. -/
inductive CFloat : Type
  | finite (q : Rat)
  | posInf
  | negInf
  | nan
deriving DecidableEq, Repr

/-- The `arg_value_t` union, tagged by the owning definition's type
(accessors and the parse loop only ever read the member matching the
definition's type tag, so the tagged sum is an exact model). -/
inductive ArgValue : Type
  | flag (b : Bool)
  | str (s : Option String)
  | int (n : Int)
  | float (x : CFloat)
deriving DecidableEq, Repr

/-- Reading the `.flag` member of the union. -/
def ArgValue.flagVal : ArgValue → Bool
  | .flag b => b
  | _ => false

/-- Reading the `.string` member of the union (NULL pointer = `none`). -/
def ArgValue.stringVal : ArgValue → Option String
  | .str s => s
  | _ => none

/-- Reading the `.integer` member of the union. -/
def ArgValue.intVal : ArgValue → Int
  | .int n => n
  | _ => 0

/-- Reading the `.floating` member of the union. -/
def ArgValue.floatVal : ArgValue → CFloat
  | .float x => x
  | _ => .finite 0

/-- The `arg_validator_fn` function pointer.  `run` takes the invocation
index (modelling any external mutable state the C function may read, so
that re-invocation may yield a different outcome), the value and the type,
and returns the boolean verdict together with the error-buffer content it
wrote (empty = wrote nothing). -/
structure Validator : Type where
  run : Nat → ArgValue → ArgType → Bool × String

/-- The `arg_def_t` struct, extended with the `validator` member used by
`program_arguments.c`. -/
structure ArgDef : Type where
  short_name : Option String
  long_name : Option String
  description : Option String
  type : ArgType
  required : Bool
  default_value : ArgValue
  validator : Option Validator

instance : Inhabited ArgDef :=
  ⟨⟨none, none, none, .flag, false, .flag false, none⟩⟩

/-- The `arg_result_t` struct with the validation-cache members used by
`program_arguments.c` (`validation_attempted`, `is_valid`,
`validation_error`), plus the ghost invocation counter `validator_calls`. -/
structure ArgResult : Type where
  value : ArgValue
  is_set : Bool
  validation_attempted : Bool
  is_valid : Bool
  validation_error : String
  validator_calls : Nat

instance : Inhabited ArgResult :=
  ⟨⟨.flag false, false, false, false, "", 0⟩⟩

/-- The `arg_parser_t` struct (capacity fields dropped, see header
comment), plus the ghost stderr log of validation diagnostics. -/
structure ArgParser : Type where
  definitions : List ArgDef
  results : List ArgResult
  positional_args : List String
  stderr_log : List String

/-- `arg_parser_create`: empty registry, no results, no positionals. -/
def arg_parser_create : ArgParser :=
  { definitions := [], results := [], positional_args := [], stderr_log := [] }

/-! ### Value coercion (`atoi` / `atof`)

The parse loop coerces Int and Float value tokens with the libc functions
`atoi` and `atof`: skip leading whitespace, read an optional sign, then
read as many decimal digits as possible (`atof` also reads a fractional
part and a decimal exponent); if no digits were read the result is `0`.
Overflow is undefined behaviour in C and is modelled as unbounded; the
double-to-float rounding of `(float)atof(...)` is not modelled (the value
is kept exact), which is irrelevant to the claims, all of which concern
the parse-or-zero structure of the coercion. -/

/-- The whitespace characters `isspace` recognises in the C locale. -/
def isSpaceChar (c : Char) : Bool :=
  c = ' ' || c = '\t' || c = '\n' || c = '\x0b' || c = '\x0c' || c = '\r'

/-- Strip an optional leading sign, returning the sign as `-1` or `1`. -/
def splitSign : List Char → Int × List Char
  | '-' :: rest => (-1, rest)
  | '+' :: rest => (1, rest)
  | cs => (1, cs)

/-- Accumulate a decimal digit string into a natural number. -/
def digitsToNat (ds : List Char) : Nat :=
  ds.foldl (fun a c => a * 10 + (c.toNat - 48)) 0

/-- The decimal digits `atoi` consumes from a token: skip whitespace,
skip an optional sign, take leading digits. -/
def intDigitsOf (s : String) : List Char :=
  ((splitSign (s.toList.dropWhile isSpaceChar)).2).takeWhile Char.isDigit

/-- The sign `atoi`/`atof` read from a token. -/
def signOf (s : String) : Int :=
  (splitSign (s.toList.dropWhile isSpaceChar)).1

/-- Best-effort decimal integer coercion (`atoi`): parse-or-zero. -/
def atoi (s : String) : Int :=
  signOf s * (digitsToNat (intDigitsOf s) : Int)

/-- The fractional digits `atof` consumes: the digits following a `.`
that immediately follows the integer digits. -/
def fracDigitsOf (s : String) : List Char :=
  match ((splitSign (s.toList.dropWhile isSpaceChar)).2).dropWhile Char.isDigit with
  | '.' :: rest => rest.takeWhile Char.isDigit
  | _ => []

/-- The remainder of the token after the mantissa, where `atof` looks for
a decimal exponent. -/
def afterMantissa (s : String) : List Char :=
  match ((splitSign (s.toList.dropWhile isSpaceChar)).2).dropWhile Char.isDigit with
  | '.' :: rest => rest.dropWhile Char.isDigit
  | cs => cs

/-- The decimal exponent `atof` consumes (0 when none is present; an `e`
not followed by at least one digit is not consumed, per `strtod`). -/
def expOf (s : String) : Int :=
  match afterMantissa s with
  | 'e' :: rest | 'E' :: rest =>
    let (sg, rest2) := splitSign rest
    let ds := rest2.takeWhile Char.isDigit
    if ds.isEmpty then 0 else sg * (digitsToNat ds : Int)
  | _ => 0

/-- Case-insensitive check for the `inf` prefix `strtod` recognises
after whitespace and sign (also covering `infinity`, which denotes the
same value). -/
def isInfPrefix : List Char → Bool
  | c1 :: c2 :: c3 :: _ =>
    (c1 = 'i' || c1 = 'I') && (c2 = 'n' || c2 = 'N') && (c3 = 'f' || c3 = 'F')
  | _ => false

/-- Case-insensitive check for the `nan` prefix `strtod` recognises
after whitespace and sign. -/
def isNanPrefix : List Char → Bool
  | c1 :: c2 :: c3 :: _ =>
    (c1 = 'n' || c1 = 'N') && (c2 = 'a' || c2 = 'A') && (c3 = 'n' || c3 = 'N')
  | _ => false

/-- Best-effort floating coercion (`atof`): a signed infinity for an
`inf`/`infinity` form, NaN for a `nan` form, otherwise the exact decimal
value, and `0` when no conversion can be performed (hexadecimal floats,
which begin with a digit and so lie outside every no-conversion
hypothesis used below, are not modelled). -/
def atofR (s : String) : CFloat :=
  let cs := (splitSign (s.toList.dropWhile isSpaceChar)).2
  if isInfPrefix cs then (if signOf s < 0 then .negInf else .posInf)
  else if isNanPrefix cs then .nan
  else
    let ids := intDigitsOf s
    let fds := fracDigitsOf s
    if ids.isEmpty ∧ fds.isEmpty then .finite 0
    else
      let mantissa : Rat :=
        (digitsToNat ids : Rat) +
          (digitsToNat fds : Rat) / ((10 : Rat) ^ fds.length)
      .finite ((signOf s : Rat) * mantissa * (10 : Rat) ^ (expOf s))

/-! ### Definition registry -/

/-- Helper `add_argument`: fails (`-1`, modelled as `none`) when `parser`
or `long_name` is NULL; otherwise appends a new definition with
`validator = NULL`.  (Capacity growth and its allocation-failure path are
dropped, see header comment.) -/
def add_argument (p : ArgParser) (short_name : Option String)
    (long_name : Option String) (description : Option String)
    (type : ArgType) (required : Bool) (default_value : ArgValue) :
    Option ArgParser :=
  match long_name with
  | none => none
  | some _ =>
    some { p with
      definitions := p.definitions ++
        [{ short_name := short_name, long_name := long_name,
           description := description, type := type, required := required,
           default_value := default_value, validator := none }] }

/-- `arg_parser_add_flag` (flags are never required). -/
def arg_parser_add_flag (p : ArgParser) (short_name long_name : Option String)
    (description : Option String) (default_value : Bool) : Option ArgParser :=
  add_argument p short_name long_name description .flag false
    (.flag default_value)

/-- `arg_parser_add_string` (the default string is `strdup`ed; a NULL
default stays NULL). -/
def arg_parser_add_string (p : ArgParser) (short_name long_name : Option String)
    (description : Option String) (required : Bool)
    (default_value : Option String) : Option ArgParser :=
  add_argument p short_name long_name description .string required
    (.str default_value)

/-- `arg_parser_add_int`. -/
def arg_parser_add_int (p : ArgParser) (short_name long_name : Option String)
    (description : Option String) (required : Bool) (default_value : Int) :
    Option ArgParser :=
  add_argument p short_name long_name description .int required
    (.int default_value)

/-- `arg_parser_add_float`. -/
def arg_parser_add_float (p : ArgParser) (short_name long_name : Option String)
    (description : Option String) (required : Bool) (default_value : CFloat) :
    Option ArgParser :=
  add_argument p short_name long_name description .float required
    (.float default_value)

/-- The loop body of `arg_parser_set_validator`: store the validator into
the first definition whose (non-NULL) `long_name` equals `name`; `none`
models the `-1` return when no definition matches. -/
def setValidatorInDefs : List ArgDef → String → Validator → Option (List ArgDef)
  | [], _, _ => none
  | d :: ds, name, v =>
    if d.long_name = some name then
      some ({ d with validator := some v } :: ds)
    else
      (setValidatorInDefs ds name v).map (d :: ·)

/-- `arg_parser_set_validator`. -/
def arg_parser_set_validator (p : ArgParser) (long_name : String)
    (v : Validator) : Option ArgParser :=
  (setValidatorInDefs p.definitions long_name v).map
    (fun ds => { p with definitions := ds })

/-- Whether a definition matches a name, in the order `find_definition`
checks: non-NULL `long_name` equal, or non-NULL `short_name` equal. -/
def matchesName (d : ArgDef) (name : String) : Bool :=
  d.long_name = some name || d.short_name = some name

/-- `find_definition`: index of the first definition (in registration
order) whose long or short name equals `name`; `none` models the NULL
return. -/
def find_definition_idx : List ArgDef → String → Option Nat
  | [], _ => none
  | d :: ds, name =>
    if matchesName d name then some 0
    else (find_definition_idx ds name).map (· + 1)

/-- The lookup loop of `arg_parser_get`: index of the first definition
whose (non-NULL) `long_name` equals `name` (short names are not consulted
there). -/
def getLongIdx : List ArgDef → String → Option Nat
  | [], _ => none
  | d :: ds, name =>
    if d.long_name = some name then some 0
    else (getLongIdx ds name).map (· + 1)

/-! ### Validation cache -/

/-- `validate_result`: returns the boolean verdict, the updated result,
and the diagnostics printed to stderr.  If validation was already
attempted the cached `is_valid` is returned and nothing changes.
Otherwise `validation_attempted` is set; with no validator attached the
result becomes valid vacuously; with a validator attached it is invoked
(once — the ghost counter records this), its verdict and written buffer
are stored, and on a false verdict with a non-empty buffer a diagnostic
naming the definition's `long_name` is emitted. -/
def validate_result (d : ArgDef) (r : ArgResult) :
    Bool × ArgResult × List String :=
  if r.validation_attempted then
    (r.is_valid, r, [])
  else
    match d.validator with
    | none =>
      (true, { r with validation_attempted := true, is_valid := true }, [])
    | some v =>
      let out := v.run r.validator_calls r.value d.type
      let r2 : ArgResult :=
        { r with
          validation_attempted := true
          is_valid := out.1
          validation_error := out.2
          validator_calls := r.validator_calls + 1 }
      let log : List String :=
        if out.1 = false ∧ out.2 ≠ "" then
          ["Validation error for " ++ (d.long_name.getD "") ++ ": " ++ out.2]
        else []
      (out.1, r2, log)

/-- `arg_parser_get`: look up the result by exact `long_name` match, run
(or reuse) validation on it, and return NULL (`none`) when the name is
unknown or the verdict is Invalid, else the result's index.  The updated
parser reflects the validation-cache mutation in both cases. -/
def arg_parser_get (p : ArgParser) (long_name : String) :
    Option Nat × ArgParser :=
  match getLongIdx p.definitions long_name with
  | none => (none, p)
  | some i =>
    let d := p.definitions.getD i default
    let r := p.results.getD i default
    let out := validate_result d r
    let p2 : ArgParser :=
      { p with results := p.results.set i out.2.1,
               stderr_log := p.stderr_log ++ out.2.2 }
    if out.1 then (some i, p2) else (none, p2)

/-! ### Type-specific accessors -/

/-- `arg_parser_get_flag`: false when the result is NULL (unknown name or
Invalid verdict) or the definition is not a Flag; else the flag member. -/
def arg_parser_get_flag (p : ArgParser) (long_name : String) :
    Bool × ArgParser :=
  let out := arg_parser_get p long_name
  match out.1 with
  | none => (false, out.2)
  | some i =>
    if (out.2.definitions.getD i default).type ≠ .flag then (false, out.2)
    else ((out.2.results.getD i default).value.flagVal, out.2)

/-- `arg_parser_get_string`: NULL when the result is NULL or the
definition is not a String; else the string member. -/
def arg_parser_get_string (p : ArgParser) (long_name : String) :
    Option String × ArgParser :=
  let out := arg_parser_get p long_name
  match out.1 with
  | none => (none, out.2)
  | some i =>
    if (out.2.definitions.getD i default).type ≠ .string then (none, out.2)
    else ((out.2.results.getD i default).value.stringVal, out.2)

/-- The fallback of `arg_parser_get_int` / `arg_parser_get_float`: on a
NULL result or type mismatch, `find_definition` is consulted, and the
definition's default (if it has the requested type) or zero is
returned. -/
def intFallback (p : ArgParser) (long_name : String) : Int :=
  match find_definition_idx p.definitions long_name with
  | none => 0
  | some j =>
    let dj := p.definitions.getD j default
    if dj.type = .int then dj.default_value.intVal else 0

/-- `arg_parser_get_int`. -/
def arg_parser_get_int (p : ArgParser) (long_name : String) :
    Int × ArgParser :=
  let out := arg_parser_get p long_name
  match out.1 with
  | none => (intFallback out.2 long_name, out.2)
  | some i =>
    if (out.2.definitions.getD i default).type ≠ .int then
      (intFallback out.2 long_name, out.2)
    else ((out.2.results.getD i default).value.intVal, out.2)

/-- The float fallback, symmetric to `intFallback`. -/
def floatFallback (p : ArgParser) (long_name : String) : CFloat :=
  match find_definition_idx p.definitions long_name with
  | none => .finite 0
  | some j =>
    let dj := p.definitions.getD j default
    if dj.type = .float then dj.default_value.floatVal else .finite 0

/-- `arg_parser_get_float`. -/
def arg_parser_get_float (p : ArgParser) (long_name : String) :
    CFloat × ArgParser :=
  let out := arg_parser_get p long_name
  match out.1 with
  | none => (floatFallback out.2 long_name, out.2)
  | some i =>
    if (out.2.definitions.getD i default).type ≠ .float then
      (floatFallback out.2 long_name, out.2)
    else ((out.2.results.getD i default).value.floatVal, out.2)

/-- `arg_parser_is_set`: false when the result is NULL (unknown name or
Invalid verdict), else the result's `is_set`. -/
def arg_parser_is_set (p : ArgParser) (long_name : String) :
    Bool × ArgParser :=
  let out := arg_parser_get p long_name
  match out.1 with
  | none => (false, out.2)
  | some i => ((out.2.results.getD i default).is_set, out.2)

/-- `arg_parser_get_positional`: the positionals in encounter order
(count output parameter subsumed by the list length). -/
def arg_parser_get_positional (p : ArgParser) : List String :=
  p.positional_args

/-! ### Parser engine -/

/-- The fatal parse errors, each carrying what the corresponding
`fprintf(stderr, ...)` names before `arg_parser_parse` returns `-1`. -/
inductive ParseError : Type
  | unknownArgument (arg : String)
  | missingValue (arg : String)
  | requiredMissing (long_name : Option String)
deriving DecidableEq, Repr

/-- The `arg[0] == '-'` test (an empty token reads the NUL terminator and
is treated as positional). -/
def isOptionTok (t : String) : Bool :=
  match t.toList with
  | '-' :: _ => true
  | _ => false

/-- The value-coercion `switch` of the parse loop: String is `strdup`ed,
Int goes through `atoi`, Float through `(float)atof`; the `default`
branch leaves the value unchanged (unreachable: Flag is handled before
the switch). -/
def coerceValue (ty : ArgType) (old : ArgValue) (tok : String) : ArgValue :=
  match ty with
  | .string => .str (some tok)
  | .int => .int (atoi tok)
  | .float => .float (atofR tok)
  | .flag => old

/-- Result initialisation at the top of `arg_parser_parse`: default
value, nothing set, validation untouched, empty error buffer. -/
def init_result (d : ArgDef) : ArgResult :=
  { value := d.default_value, is_set := false, validation_attempted := false,
    is_valid := false, validation_error := "", validator_calls := 0 }

/-- Update the result at index `i` when its option occurred as a flag. -/
def setFlagResult (rs : List ArgResult) (i : Nat) : List ArgResult :=
  rs.set i { rs.getD i default with value := .flag true, is_set := true }

/-- Update the result at index `i` when its option occurred with value
token `v`. -/
def setValueResult (rs : List ArgResult) (i : Nat) (ty : ArgType)
    (v : String) : List ArgResult :=
  rs.set i
    { rs.getD i default with
      value := coerceValue ty (rs.getD i default).value v, is_set := true }

/-- The token loop of `arg_parser_parse` (`for (int i = 1; i < argc; ...)`),
over the tokens after the program name.  A `-`-token is resolved via
`find_definition` (fatal `UnknownArgument` if unresolved); a Flag
definition consumes one token, a non-Flag definition consumes the next
token as its value (fatal `MissingValue` if there is none); any other
token is appended to the positionals. -/
def parse_args : ArgParser → List String → Except ParseError ArgParser
  | p, [] => .ok p
  | p, tok :: rest =>
    if isOptionTok tok then
      match find_definition_idx p.definitions tok with
      | none => .error (.unknownArgument tok)
      | some i =>
        if (p.definitions.getD i default).type = .flag then
          parse_args { p with results := setFlagResult p.results i } rest
        else
          match rest with
          | [] => .error (.missingValue tok)
          | v :: rest2 =>
            parse_args
              { p with
                results :=
                  setValueResult p.results i
                    (p.definitions.getD i default).type v }
              rest2
    else
      parse_args { p with positional_args := p.positional_args ++ [tok] } rest

/-- The required-argument check after the token loop: the `long_name` of
the first definition with `required` set whose result has `is_set`
false, if any. -/
def firstRequiredMissing : List ArgDef → List ArgResult → Option (Option String)
  | [], _ => none
  | _ :: _, [] => none
  | d :: ds, r :: rs =>
    if d.required && !r.is_set then some d.long_name
    else firstRequiredMissing ds rs

/-- `arg_parser_parse`: allocate one freshly initialised result per
definition, run the token loop over `argv[1..]`, then fail with
`RequiredMissing` (naming the first offender) if a required definition
was never set. -/
def arg_parser_parse (p : ArgParser) (argv : List String) :
    Except ParseError ArgParser :=
  let p0 : ArgParser := { p with results := p.definitions.map init_result }
  match parse_args p0 (argv.drop 1) with
  | .error e => .error e
  | .ok p1 =>
    match firstRequiredMissing p1.definitions p1.results with
    | some name => .error (.requiredMissing name)
    | none => .ok p1

/-! ### Spec-level views of the parse loop

`optOccursIdx` and `applyOccs` restate, per definition index, which
tokens the loop treats as occurrences of that definition's option and
what those occurrences do to its result.  They follow the loop's token
consumption (a non-Flag option consumes its value token, so that token is
not itself inspected as an option). -/

/-- Whether the option of definition `i` occurs in the token list, i.e.
whether some processed `-`-token resolves to definition `i`.  A dangling
non-Flag option at the end of the list (which makes the loop fail) and
anything after an unknown `-`-token (ditto) do not count; all uses are
under a successful-parse hypothesis, where neither arises. -/
def optOccursIdx (defs : List ArgDef) (i : Nat) : List String → Bool
  | [] => false
  | tok :: rest =>
    if isOptionTok tok then
      match find_definition_idx defs tok with
      | none => false
      | some j =>
        if (defs.getD j default).type = .flag then
          (j == i) || optOccursIdx defs i rest
        else
          match rest with
          | [] => false
          | _ :: rest2 => (j == i) || optOccursIdx defs i rest2
    else optOccursIdx defs i rest

/-- The parse loop projected onto the result of definition `i`: fold the
occurrences of option `i` over its result, exactly as the loop writes
them. -/
def applyOccs (defs : List ArgDef) (i : Nat) (r : ArgResult) :
    List String → ArgResult
  | [] => r
  | tok :: rest =>
    if isOptionTok tok then
      match find_definition_idx defs tok with
      | none => r
      | some j =>
        if (defs.getD j default).type = .flag then
          applyOccs defs i
            (if j = i then { r with value := .flag true, is_set := true }
             else r) rest
        else
          match rest with
          | [] => r
          | v :: rest2 =>
            applyOccs defs i
              (if j = i then
                 { r with
                   value := coerceValue (defs.getD j default).type r.value v,
                   is_set := true }
               else r) rest2
    else applyOccs defs i r rest

/-! ### Accessor call sequences

For the caching claims, an access is any of the five public by-name reads
(all of which go through `arg_parser_get`). -/

/-- One public accessor call. -/
inductive AccessOp : Type
  | getFlag (name : String)
  | getString (name : String)
  | getInt (name : String)
  | getFloat (name : String)
  | isSet (name : String)

/-- The name an access targets. -/
def AccessOp.name : AccessOp → String
  | .getFlag n => n
  | .getString n => n
  | .getInt n => n
  | .getFloat n => n
  | .isSet n => n

/-- The parser state after one accessor call (the returned value is
dropped). -/
def applyAccess (p : ArgParser) : AccessOp → ArgParser
  | .getFlag n => (arg_parser_get_flag p n).2
  | .getString n => (arg_parser_get_string p n).2
  | .getInt n => (arg_parser_get_int p n).2
  | .getFloat n => (arg_parser_get_float p n).2
  | .isSet n => (arg_parser_is_set p n).2

/-- The parser state after a sequence of accessor calls. -/
def applyAccesses (p : ArgParser) (ops : List AccessOp) : ArgParser :=
  ops.foldl applyAccess p

/-! ### List helpers -/

theorem getD_set_self {α : Type} (l : List α) (i : Nat) (a d : α)
    (h : i < l.length) : (l.set i a).getD i d = a := by
  induction l generalizing i with
  | nil => simp at h
  | cons x xs ih =>
    cases i with
    | zero => rfl
    | succ n =>
      simp only [List.set, List.getD, List.getElem?_cons_succ]
      exact ih n (by simpa using Nat.lt_of_succ_lt_succ h)

theorem getD_set_ne {α : Type} (l : List α) (i j : Nat) (a d : α)
    (h : i ≠ j) : (l.set i a).getD j d = l.getD j d := by
  induction l generalizing i j with
  | nil => simp [List.set]
  | cons x xs ih =>
    cases i with
    | zero =>
      cases j with
      | zero => exact absurd rfl h
      | succ m => rfl
    | succ n =>
      cases j with
      | zero => rfl
      | succ m =>
        simp only [List.set, List.getD, List.getElem?_cons_succ]
        exact ih n m (fun hc => h (by rw [hc]))

/-! ### Validation-cache lemmas -/

theorem validate_result_attempted (d : ArgDef) (r : ArgResult) :
    (validate_result d r).2.1.validation_attempted = true := by
  unfold validate_result
  by_cases h : r.validation_attempted
  · simp [h]
  · simp only [h]
    cases d.validator <;> simp

theorem validate_result_value (d : ArgDef) (r : ArgResult) :
    (validate_result d r).2.1.value = r.value := by
  unfold validate_result
  by_cases h : r.validation_attempted
  · simp [h]
  · simp only [h]
    cases d.validator <;> simp

theorem validate_result_is_set (d : ArgDef) (r : ArgResult) :
    (validate_result d r).2.1.is_set = r.is_set := by
  unfold validate_result
  by_cases h : r.validation_attempted
  · simp [h]
  · simp only [h]
    cases d.validator <;> simp

theorem validate_result_cached (d : ArgDef) (r : ArgResult)
    (h : r.validation_attempted = true) :
    validate_result d r = (r.is_valid, r, []) := by
  unfold validate_result
  simp [h]

theorem validate_result_novalidator (d : ArgDef) (r : ArgResult)
    (h : r.validation_attempted = false) (hv : d.validator = none) :
    validate_result d r =
      (true, { r with validation_attempted := true, is_valid := true }, []) := by
  unfold validate_result
  simp [h, hv]

theorem validate_result_fresh (d : ArgDef) (r : ArgResult) (v : Validator)
    (h : r.validation_attempted = false) (hv : d.validator = some v) :
    validate_result d r =
      ((v.run r.validator_calls r.value d.type).1,
       { r with
         validation_attempted := true
         is_valid := (v.run r.validator_calls r.value d.type).1
         validation_error := (v.run r.validator_calls r.value d.type).2
         validator_calls := r.validator_calls + 1 },
       if (v.run r.validator_calls r.value d.type).1 = false ∧
          (v.run r.validator_calls r.value d.type).2 ≠ "" then
         ["Validation error for " ++ (d.long_name.getD "") ++ ": " ++
           (v.run r.validator_calls r.value d.type).2]
       else []) := by
  unfold validate_result
  simp [h, hv]

theorem validate_result_calls (d : ArgDef) (r : ArgResult) :
    (validate_result d r).2.1.validator_calls ≤ r.validator_calls + 1 := by
  unfold validate_result
  by_cases h : r.validation_attempted
  · simp [h]
  · simp only [h]
    cases d.validator <;> simp

/-! ### `arg_parser_get` state lemmas -/

theorem get_definitions (p : ArgParser) (n : String) :
    (arg_parser_get p n).2.definitions = p.definitions := by
  unfold arg_parser_get
  cases h : getLongIdx p.definitions n with
  | none => rfl
  | some i =>
    dsimp only
    split <;> rfl

theorem get_results_length (p : ArgParser) (n : String) :
    (arg_parser_get p n).2.results.length = p.results.length := by
  unfold arg_parser_get
  cases h : getLongIdx p.definitions n with
  | none => rfl
  | some i =>
    dsimp only
    split <;> simp

theorem get_results_eq (p : ArgParser) (n : String) (i : Nat)
    (h : getLongIdx p.definitions n = some i) (hi : i < p.results.length) :
    (arg_parser_get p n).2.results.getD i default =
      (validate_result (p.definitions.getD i default)
        (p.results.getD i default)).2.1 := by
  unfold arg_parser_get
  rw [h]
  dsimp only
  split <;> exact getD_set_self _ _ _ _ hi

theorem get_results_ne (p : ArgParser) (n : String) (j : Nat)
    (h : getLongIdx p.definitions n ≠ some j) :
    (arg_parser_get p n).2.results.getD j default =
      p.results.getD j default := by
  unfold arg_parser_get
  cases hg : getLongIdx p.definitions n with
  | none => rfl
  | some i =>
    have hij : i ≠ j := fun hc => h (hg ▸ hc ▸ rfl)
    dsimp only
    split <;> exact getD_set_ne _ _ _ _ _ hij

/-! ### Accessor state lemmas: every public accessor's state effect is
exactly the `arg_parser_get` lookup it performs. -/

theorem get_flag_snd (p : ArgParser) (n : String) :
    (arg_parser_get_flag p n).2 = (arg_parser_get p n).2 := by
  unfold arg_parser_get_flag
  cases h : (arg_parser_get p n).1 with
  | none => simp [h]
  | some i =>
    simp only [h]
    split <;> rfl

theorem get_string_snd (p : ArgParser) (n : String) :
    (arg_parser_get_string p n).2 = (arg_parser_get p n).2 := by
  unfold arg_parser_get_string
  cases h : (arg_parser_get p n).1 with
  | none => simp [h]
  | some i =>
    simp only [h]
    split <;> rfl

theorem get_int_snd (p : ArgParser) (n : String) :
    (arg_parser_get_int p n).2 = (arg_parser_get p n).2 := by
  unfold arg_parser_get_int
  cases h : (arg_parser_get p n).1 with
  | none => simp [h]
  | some i =>
    simp only [h]
    split <;> rfl

theorem get_float_snd (p : ArgParser) (n : String) :
    (arg_parser_get_float p n).2 = (arg_parser_get p n).2 := by
  unfold arg_parser_get_float
  cases h : (arg_parser_get p n).1 with
  | none => simp [h]
  | some i =>
    simp only [h]
    split <;> rfl

theorem is_set_snd (p : ArgParser) (n : String) :
    (arg_parser_is_set p n).2 = (arg_parser_get p n).2 := by
  unfold arg_parser_is_set
  cases h : (arg_parser_get p n).1 with
  | none => simp [h]
  | some i => simp [h]

theorem applyAccess_state (p : ArgParser) (op : AccessOp) :
    applyAccess p op = (arg_parser_get p op.name).2 := by
  cases op with
  | getFlag n => exact get_flag_snd p n
  | getString n => exact get_string_snd p n
  | getInt n => exact get_int_snd p n
  | getFloat n => exact get_float_snd p n
  | isSet n => exact is_set_snd p n

/-! ### Step equations of the parse loop -/

theorem parse_args_nil (p : ArgParser) : parse_args p [] = .ok p := by
  simp [parse_args]

theorem parse_args_unknown (p : ArgParser) (tok : String) (rest : List String)
    (h1 : isOptionTok tok = true)
    (h2 : find_definition_idx p.definitions tok = none) :
    parse_args p (tok :: rest) = .error (.unknownArgument tok) := by
  rw [parse_args]
  simp [h1, h2]

theorem parse_args_flag_step (p : ArgParser) (tok : String)
    (rest : List String) (i : Nat) (h1 : isOptionTok tok = true)
    (h2 : find_definition_idx p.definitions tok = some i)
    (h3 : (p.definitions.getD i default).type = .flag) :
    parse_args p (tok :: rest) =
      parse_args { p with results := setFlagResult p.results i } rest := by
  rw [parse_args]
  simp only [List.getD_eq_getElem?_getD] at h3
  simp [h1, h2, h3]

theorem parse_args_dangling (p : ArgParser) (tok : String) (i : Nat)
    (h1 : isOptionTok tok = true)
    (h2 : find_definition_idx p.definitions tok = some i)
    (h3 : (p.definitions.getD i default).type ≠ .flag) :
    parse_args p [tok] = .error (.missingValue tok) := by
  rw [parse_args]
  simp only [List.getD_eq_getElem?_getD] at h3
  simp [h1, h2, h3]

theorem parse_args_value_step (p : ArgParser) (tok v : String)
    (rest : List String) (i : Nat) (h1 : isOptionTok tok = true)
    (h2 : find_definition_idx p.definitions tok = some i)
    (h3 : (p.definitions.getD i default).type ≠ .flag) :
    parse_args p (tok :: v :: rest) =
      parse_args
        { p with
          results :=
            setValueResult p.results i (p.definitions.getD i default).type v }
        rest := by
  rw [parse_args]
  simp only [List.getD_eq_getElem?_getD] at h3
  simp [h1, h2, h3, List.getD_eq_getElem?_getD]

theorem parse_args_positional (p : ArgParser) (tok : String)
    (rest : List String) (h1 : isOptionTok tok = false) :
    parse_args p (tok :: rest) =
      parse_args { p with positional_args := p.positional_args ++ [tok] }
        rest := by
  rw [parse_args]
  simp [h1]

/-! ### Step equations of the spec-level views -/

theorem optOccursIdx_nil (defs : List ArgDef) (i : Nat) :
    optOccursIdx defs i [] = false := by
  simp [optOccursIdx]

theorem optOccursIdx_unknown (defs : List ArgDef) (i : Nat) (tok : String)
    (rest : List String) (h1 : isOptionTok tok = true)
    (h2 : find_definition_idx defs tok = none) :
    optOccursIdx defs i (tok :: rest) = false := by
  rw [optOccursIdx]
  simp [h1, h2]

theorem optOccursIdx_flag (defs : List ArgDef) (i j : Nat) (tok : String)
    (rest : List String) (h1 : isOptionTok tok = true)
    (h2 : find_definition_idx defs tok = some j)
    (h3 : (defs.getD j default).type = .flag) :
    optOccursIdx defs i (tok :: rest) =
      ((j == i) || optOccursIdx defs i rest) := by
  rw [optOccursIdx]
  simp only [List.getD_eq_getElem?_getD] at h3
  simp [h1, h2, h3]

theorem optOccursIdx_dangling (defs : List ArgDef) (i j : Nat) (tok : String)
    (h1 : isOptionTok tok = true)
    (h2 : find_definition_idx defs tok = some j)
    (h3 : (defs.getD j default).type ≠ .flag) :
    optOccursIdx defs i [tok] = false := by
  rw [optOccursIdx]
  simp only [List.getD_eq_getElem?_getD] at h3
  simp [h1, h2, h3]

theorem optOccursIdx_value (defs : List ArgDef) (i j : Nat) (tok v : String)
    (rest : List String) (h1 : isOptionTok tok = true)
    (h2 : find_definition_idx defs tok = some j)
    (h3 : (defs.getD j default).type ≠ .flag) :
    optOccursIdx defs i (tok :: v :: rest) =
      ((j == i) || optOccursIdx defs i rest) := by
  rw [optOccursIdx]
  simp only [List.getD_eq_getElem?_getD] at h3
  simp [h1, h2, h3]

theorem optOccursIdx_positional (defs : List ArgDef) (i : Nat) (tok : String)
    (rest : List String) (h1 : isOptionTok tok = false) :
    optOccursIdx defs i (tok :: rest) = optOccursIdx defs i rest := by
  rw [optOccursIdx]
  simp [h1]

theorem applyOccs_nil (defs : List ArgDef) (i : Nat) (r : ArgResult) :
    applyOccs defs i r [] = r := by
  simp [applyOccs]

theorem applyOccs_unknown (defs : List ArgDef) (i : Nat) (r : ArgResult)
    (tok : String) (rest : List String) (h1 : isOptionTok tok = true)
    (h2 : find_definition_idx defs tok = none) :
    applyOccs defs i r (tok :: rest) = r := by
  rw [applyOccs]
  simp [h1, h2]

theorem applyOccs_flag (defs : List ArgDef) (i j : Nat) (r : ArgResult)
    (tok : String) (rest : List String) (h1 : isOptionTok tok = true)
    (h2 : find_definition_idx defs tok = some j)
    (h3 : (defs.getD j default).type = .flag) :
    applyOccs defs i r (tok :: rest) =
      applyOccs defs i
        (if j = i then { r with value := .flag true, is_set := true } else r)
        rest := by
  rw [applyOccs]
  simp only [List.getD_eq_getElem?_getD] at h3
  simp [h1, h2, h3]

theorem applyOccs_dangling (defs : List ArgDef) (i j : Nat) (r : ArgResult)
    (tok : String) (h1 : isOptionTok tok = true)
    (h2 : find_definition_idx defs tok = some j)
    (h3 : (defs.getD j default).type ≠ .flag) :
    applyOccs defs i r [tok] = r := by
  rw [applyOccs]
  simp only [List.getD_eq_getElem?_getD] at h3
  simp [h1, h2, h3]

theorem applyOccs_value (defs : List ArgDef) (i j : Nat) (r : ArgResult)
    (tok v : String) (rest : List String) (h1 : isOptionTok tok = true)
    (h2 : find_definition_idx defs tok = some j)
    (h3 : (defs.getD j default).type ≠ .flag) :
    applyOccs defs i r (tok :: v :: rest) =
      applyOccs defs i
        (if j = i then
           { r with
             value := coerceValue (defs.getD j default).type r.value v,
             is_set := true }
         else r)
        rest := by
  rw [applyOccs]
  simp only [List.getD_eq_getElem?_getD] at h3
  simp [h1, h2, h3, List.getD_eq_getElem?_getD]

theorem applyOccs_positional (defs : List ArgDef) (i : Nat) (r : ArgResult)
    (tok : String) (rest : List String) (h1 : isOptionTok tok = false) :
    applyOccs defs i r (tok :: rest) = applyOccs defs i r rest := by
  rw [applyOccs]
  simp [h1]

/-! ### Parse-loop invariants -/

theorem find_definition_idx_lt (defs : List ArgDef) (name : String) (i : Nat)
    (h : find_definition_idx defs name = some i) : i < defs.length := by
  induction defs generalizing i with
  | nil => simp [find_definition_idx] at h
  | cons d ds ih =>
    unfold find_definition_idx at h
    by_cases hm : matchesName d name
    · simp [hm] at h
      simp only [List.length_cons]
      omega
    · simp [hm] at h
      obtain ⟨j, hj, rfl⟩ := h
      have := ih j hj
      simp
      omega

theorem length_setFlagResult (rs : List ArgResult) (i : Nat) :
    (setFlagResult rs i).length = rs.length := by
  simp [setFlagResult]

theorem length_setValueResult (rs : List ArgResult) (i : Nat) (ty : ArgType)
    (v : String) : (setValueResult rs i ty v).length = rs.length := by
  simp [setValueResult]

theorem getD_setFlagResult (rs : List ArgResult) (j i : Nat)
    (hj : j < rs.length) :
    (setFlagResult rs j).getD i default =
      (if j = i then
         { rs.getD i default with value := .flag true, is_set := true }
       else rs.getD i default) := by
  by_cases h : j = i
  · subst h
    simp only [if_pos rfl]
    exact getD_set_self _ _ _ _ hj
  · simp only [if_neg h]
    exact getD_set_ne _ _ _ _ _ h

theorem getD_setValueResult (rs : List ArgResult) (j i : Nat) (ty : ArgType)
    (v : String) (hj : j < rs.length) :
    (setValueResult rs j ty v).getD i default =
      (if j = i then
         { rs.getD i default with
           value := coerceValue ty (rs.getD i default).value v,
           is_set := true }
       else rs.getD i default) := by
  by_cases h : j = i
  · subst h
    simp only [if_pos rfl]
    exact getD_set_self _ _ _ _ hj
  · simp only [if_neg h]
    exact getD_set_ne _ _ _ _ _ h

theorem parse_args_definitions (p : ArgParser) (toks : List String) :
    ∀ q, parse_args p toks = .ok q → q.definitions = p.definitions := by
  induction p, toks using parse_args.induct with
  | case1 p =>
    intro q h
    rw [parse_args_nil] at h
    cases h
    rfl
  | case2 p tok rest h1 h2 =>
    intro q h
    rw [parse_args_unknown p tok rest h1 h2] at h
    cases h
  | case3 p tok rest h1 i h2 h3 ih =>
    intro q h
    rw [parse_args_flag_step p tok rest i h1 h2 h3] at h
    exact ih q h
  | case4 p tok h1 i h2 h3 =>
    intro q h
    rw [parse_args_dangling p tok i h1 h2 h3] at h
    cases h
  | case5 p tok h1 i h2 h3 v rest2 ih =>
    intro q h
    rw [parse_args_value_step p tok v rest2 i h1 h2 h3] at h
    exact ih q h
  | case6 p tok rest h1 ih =>
    intro q h
    rw [parse_args_positional p tok rest (by simpa using h1)] at h
    exact ih q h

theorem parse_args_results_length (p : ArgParser) (toks : List String) :
    ∀ q, parse_args p toks = .ok q → q.results.length = p.results.length := by
  induction p, toks using parse_args.induct with
  | case1 p =>
    intro q h
    rw [parse_args_nil] at h
    cases h
    rfl
  | case2 p tok rest h1 h2 =>
    intro q h
    rw [parse_args_unknown p tok rest h1 h2] at h
    cases h
  | case3 p tok rest h1 i h2 h3 ih =>
    intro q h
    rw [parse_args_flag_step p tok rest i h1 h2 h3] at h
    rw [ih q h]
    exact length_setFlagResult p.results i
  | case4 p tok h1 i h2 h3 =>
    intro q h
    rw [parse_args_dangling p tok i h1 h2 h3] at h
    cases h
  | case5 p tok h1 i h2 h3 v rest2 ih =>
    intro q h
    rw [parse_args_value_step p tok v rest2 i h1 h2 h3] at h
    rw [ih q h]
    exact length_setValueResult p.results i _ v
  | case6 p tok rest h1 ih =>
    intro q h
    rw [parse_args_positional p tok rest (by simpa using h1)] at h
    exact ih q h

theorem parse_args_ok_append (p : ArgParser) (toks : List String) :
    ∀ q ys, parse_args p toks = .ok q →
      parse_args p (toks ++ ys) = parse_args q ys := by
  induction p, toks using parse_args.induct with
  | case1 p =>
    intro q ys h
    rw [parse_args_nil] at h
    cases h
    rfl
  | case2 p tok rest h1 h2 =>
    intro q ys h
    rw [parse_args_unknown p tok rest h1 h2] at h
    cases h
  | case3 p tok rest h1 i h2 h3 ih =>
    intro q ys h
    rw [parse_args_flag_step p tok rest i h1 h2 h3] at h
    rw [List.cons_append, parse_args_flag_step p tok (rest ++ ys) i h1 h2 h3]
    exact ih q ys h
  | case4 p tok h1 i h2 h3 =>
    intro q ys h
    rw [parse_args_dangling p tok i h1 h2 h3] at h
    cases h
  | case5 p tok h1 i h2 h3 v rest2 ih =>
    intro q ys h
    rw [parse_args_value_step p tok v rest2 i h1 h2 h3] at h
    rw [List.cons_append, List.cons_append,
        parse_args_value_step p tok v (rest2 ++ ys) i h1 h2 h3]
    exact ih q ys h
  | case6 p tok rest h1 ih =>
    intro q ys h
    rw [parse_args_positional p tok rest (by simpa using h1)] at h
    rw [List.cons_append,
        parse_args_positional _ tok (rest ++ ys) (by simpa using h1)]
    exact ih q ys h

/-- The parse loop, projected to the result of definition `i`: after a
successful run of the token loop, result `i` is exactly the fold of its
option's occurrences over its initial state. -/
theorem parse_args_proj (p : ArgParser) (toks : List String) :
    ∀ q i, p.results.length = p.definitions.length →
      parse_args p toks = .ok q →
      q.results.getD i default =
        applyOccs p.definitions i (p.results.getD i default) toks := by
  induction p, toks using parse_args.induct with
  | case1 p =>
    intro q i hlen h
    rw [parse_args_nil] at h
    cases h
    rw [applyOccs_nil]
  | case2 p tok rest h1 h2 =>
    intro q i hlen h
    rw [parse_args_unknown p tok rest h1 h2] at h
    cases h
  | case3 p tok rest h1 j h2 h3 ih =>
    intro q i hlen h
    rw [parse_args_flag_step p tok rest j h1 h2 h3] at h
    rw [applyOccs_flag p.definitions i j _ tok rest h1 h2 h3]
    have hj : j < p.results.length := by
      rw [hlen]
      exact find_definition_idx_lt p.definitions tok j h2
    have hlen2 : (setFlagResult p.results j).length = p.definitions.length := by
      rw [length_setFlagResult]
      exact hlen
    have ih2 := ih q i hlen2 h
    rw [ih2, getD_setFlagResult p.results j i hj]
  | case4 p tok h1 j h2 h3 =>
    intro q i hlen h
    rw [parse_args_dangling p tok j h1 h2 h3] at h
    cases h
  | case5 p tok h1 j h2 h3 v rest2 ih =>
    intro q i hlen h
    rw [parse_args_value_step p tok v rest2 j h1 h2 h3] at h
    rw [applyOccs_value p.definitions i j _ tok v rest2 h1 h2 h3]
    have hj : j < p.results.length := by
      rw [hlen]
      exact find_definition_idx_lt p.definitions tok j h2
    have hlen2 :
        (setValueResult p.results j (p.definitions.getD j default).type v).length
          = p.definitions.length := by
      rw [length_setValueResult]
      exact hlen
    have ih2 := ih q i hlen2 h
    rw [ih2, getD_setValueResult p.results j i _ v hj]
  | case6 p tok rest h1 ih =>
    intro q i hlen h
    rw [parse_args_positional p tok rest (by simpa using h1)] at h
    rw [applyOccs_positional p.definitions i _ tok rest (by simpa using h1)]
    exact ih q i hlen h

/-- A result's `is_set` after the loop: initially false-or-current, set
exactly when its option occurs. -/
theorem applyOccs_is_set (defs : List ArgDef) (i : Nat) (r : ArgResult)
    (toks : List String) :
    (applyOccs defs i r toks).is_set = (r.is_set || optOccursIdx defs i toks) := by
  induction r, toks using applyOccs.induct defs i with
  | case1 r =>
    rw [applyOccs_nil, optOccursIdx_nil]
    simp
  | case2 r tok rest h1 h2 =>
    rw [applyOccs_unknown defs i r tok rest h1 h2,
        optOccursIdx_unknown defs i tok rest h1 h2]
    simp
  | case3 r tok rest h1 j h2 h3 ih =>
    rw [applyOccs_flag defs i j r tok rest h1 h2 h3,
        optOccursIdx_flag defs i j tok rest h1 h2 h3]
    by_cases hji : j = i
    · rw [if_pos hji] at ih
      rw [if_pos hji, ih]
      simp [hji]
    · rw [if_neg hji] at ih
      rw [if_neg hji, ih]
      have hbeq : (j == i) = false := by simpa using hji
      simp [hbeq]
  | case4 r tok h1 j h2 h3 =>
    rw [applyOccs_dangling defs i j r tok h1 h2 h3,
        optOccursIdx_dangling defs i j tok h1 h2 h3]
    simp
  | case5 r tok h1 j h2 h3 v rest2 ih =>
    rw [applyOccs_value defs i j r tok v rest2 h1 h2 h3,
        optOccursIdx_value defs i j tok v rest2 h1 h2 h3]
    by_cases hji : j = i
    · rw [if_pos hji] at ih
      rw [if_pos hji, ih]
      simp [hji]
    · rw [if_neg hji] at ih
      rw [if_neg hji, ih]
      have hbeq : (j == i) = false := by simpa using hji
      simp [hbeq]
  | case6 r tok rest h1 ih =>
    rw [applyOccs_positional defs i r tok rest (by simpa using h1),
        optOccursIdx_positional defs i tok rest (by simpa using h1)]
    exact ih

/-- A result its option never occurs for is left untouched by the loop. -/
theorem applyOccs_no_occ (defs : List ArgDef) (i : Nat) (r : ArgResult)
    (toks : List String) (hocc : optOccursIdx defs i toks = false) :
    applyOccs defs i r toks = r := by
  induction r, toks using applyOccs.induct defs i with
  | case1 r => rw [applyOccs_nil]
  | case2 r tok rest h1 h2 => rw [applyOccs_unknown defs i r tok rest h1 h2]
  | case3 r tok rest h1 j h2 h3 ih =>
    rw [optOccursIdx_flag defs i j tok rest h1 h2 h3] at hocc
    simp only [Bool.or_eq_false_iff] at hocc
    have hji : ¬ j = i := by
      intro hc
      rw [hc] at hocc
      simp at hocc
    rw [if_neg hji] at ih
    rw [applyOccs_flag defs i j r tok rest h1 h2 h3, if_neg hji]
    exact ih hocc.2
  | case4 r tok h1 j h2 h3 =>
    rw [applyOccs_dangling defs i j r tok h1 h2 h3]
  | case5 r tok h1 j h2 h3 v rest2 ih =>
    rw [optOccursIdx_value defs i j tok v rest2 h1 h2 h3] at hocc
    simp only [Bool.or_eq_false_iff] at hocc
    have hji : ¬ j = i := by
      intro hc
      rw [hc] at hocc
      simp at hocc
    rw [if_neg hji] at ih
    rw [applyOccs_value defs i j r tok v rest2 h1 h2 h3, if_neg hji]
    exact ih hocc.2
  | case6 r tok rest h1 ih =>
    rw [optOccursIdx_positional defs i tok rest (by simpa using h1)] at hocc
    rw [applyOccs_positional defs i r tok rest (by simpa using h1)]
    exact ih hocc

/-! ### Required-check characterisation -/

theorem firstRequiredMissing_none (defs : List ArgDef) :
    ∀ rs : List ArgResult, rs.length = defs.length →
      (∀ k, k < defs.length → (defs.getD k default).required = true →
        (rs.getD k default).is_set = true) →
      firstRequiredMissing defs rs = none := by
  induction defs with
  | nil =>
    intro rs _ _
    cases rs <;> rfl
  | cons d ds ih =>
    intro rs hlen hall
    cases rs with
    | nil => rfl
    | cons r rs2 =>
      have hcond : (d.required && !r.is_set) = false := by
        cases hd : d.required
        · simp
        · have hs := hall 0 (by simp) (by simpa using hd)
          simp only [List.getD_cons_zero] at hs
          simp [hs]
      unfold firstRequiredMissing
      rw [hcond]
      simp only [Bool.false_eq_true, if_false]
      exact ih rs2 (by simpa using hlen)
        (fun k hk hr => hall (k + 1) (by simpa using hk) hr)

theorem firstRequiredMissing_some (defs : List ArgDef) :
    ∀ rs : List ArgResult, rs.length = defs.length →
      ∀ j, j < defs.length → (defs.getD j default).required = true →
        (rs.getD j default).is_set = false →
        ∃ j2, j2 < defs.length ∧ (defs.getD j2 default).required = true ∧
          (rs.getD j2 default).is_set = false ∧
          firstRequiredMissing defs rs =
            some (defs.getD j2 default).long_name := by
  induction defs with
  | nil =>
    intro rs _ j hj
    simp at hj
  | cons d ds ih =>
    intro rs hlen j hj hreq hset
    cases rs with
    | nil => simp at hlen
    | cons r rs2 =>
      by_cases hc : (d.required && !r.is_set) = true
      · refine ⟨0, by simp, ?_, ?_, ?_⟩
        · simpa using (Bool.and_elim_left hc)
        · have := Bool.and_elim_right hc
          simpa using this
        · unfold firstRequiredMissing
          rw [hc]
          simp
      · cases j with
        | zero =>
          exfalso
          apply hc
          simp only [List.getD_cons_zero] at hreq hset
          simp [hreq, hset]
        | succ k =>
          obtain ⟨j2, hj2, hr2, hs2, hfrm⟩ :=
            ih rs2 (by simpa using hlen) k (by simpa using hj)
              (by simpa using hreq) (by simpa using hset)
          refine ⟨j2 + 1, by simpa using hj2, by simpa using hr2,
            by simpa using hs2, ?_⟩
          unfold firstRequiredMissing
          rw [Bool.of_not_eq_true hc]
          simpa using hfrm

/-! ### `find_definition` characterisation -/

theorem find_definition_idx_first (defs : List ArgDef) (name : String) :
    ∀ i, find_definition_idx defs name = some i →
      i < defs.length ∧ matchesName (defs.getD i default) name = true ∧
      ∀ j, j < i → matchesName (defs.getD j default) name = false := by
  induction defs with
  | nil =>
    intro i h
    simp [find_definition_idx] at h
  | cons d ds ih =>
    intro i h
    unfold find_definition_idx at h
    by_cases hm : matchesName d name
    · rw [if_pos hm] at h
      cases h
      exact ⟨by simp, by simpa using hm,
        fun j hj => absurd hj (Nat.not_lt_zero j)⟩
    · rw [if_neg hm] at h
      simp only [Option.map_eq_some'] at h
      obtain ⟨k, hk, rfl⟩ := h
      obtain ⟨hklt, hkm, hkfirst⟩ := ih k hk
      refine ⟨by simpa using hklt, by simpa using hkm, ?_⟩
      intro j hj
      cases j with
      | zero => simpa using (Bool.of_not_eq_true hm)
      | succ m =>
        have := hkfirst m (by omega)
        simpa using this

theorem find_definition_idx_none_iff (defs : List ArgDef) (name : String) :
    find_definition_idx defs name = none ↔
      ∀ j, j < defs.length → matchesName (defs.getD j default) name = false := by
  induction defs with
  | nil => simp [find_definition_idx]
  | cons d ds ih =>
    unfold find_definition_idx
    by_cases hm : matchesName d name
    · rw [if_pos hm]
      constructor
      · intro h
        cases h
      · intro hall
        have := hall 0 (by simp)
        simp only [List.getD_cons_zero] at this
        rw [hm] at this
        cases this
    · rw [if_neg hm]
      simp only [Option.map_eq_none']
      rw [ih]
      constructor
      · intro hall j hj
        cases j with
        | zero => simpa using (Bool.of_not_eq_true hm)
        | succ m => exact hall m (by simpa using hj)
      · intro hall m hm2
        exact hall (m + 1) (by simpa using hm2)

theorem find_definition_idx_prefix (defs defs2 : List ArgDef) (name : String) :
    ∀ i, find_definition_idx defs name = some i →
      find_definition_idx (defs ++ defs2) name = some i := by
  induction defs with
  | nil =>
    intro i h
    simp [find_definition_idx] at h
  | cons d ds ih =>
    intro i h
    unfold find_definition_idx at h
    rw [List.cons_append]
    unfold find_definition_idx
    by_cases hm : matchesName d name
    · rw [if_pos hm] at h ⊢
      exact h
    · rw [if_neg hm] at h ⊢
      simp only [Option.map_eq_some'] at h
      obtain ⟨k, hk, rfl⟩ := h
      rw [ih k hk]
      rfl

/-! ### `getLongIdx` bound -/

theorem getLongIdx_lt (defs : List ArgDef) (name : String) :
    ∀ i, getLongIdx defs name = some i → i < defs.length := by
  induction defs with
  | nil =>
    intro i h
    simp [getLongIdx] at h
  | cons d ds ih =>
    intro i h
    unfold getLongIdx at h
    by_cases hm : d.long_name = some name
    · rw [if_pos hm] at h
      cases h
      simp
    · rw [if_neg hm] at h
      simp only [Option.map_eq_some'] at h
      obtain ⟨k, hk, rfl⟩ := h
      have := ih k hk
      simp only [List.length_cons]
      omega

/-- The value side of `arg_parser_get`: with the long name resolving to
index `i`, the call returns `some i` iff the (possibly cached) validation
verdict is true, `none` otherwise. -/
theorem get_fst_eq (p : ArgParser) (n : String) (i : Nat)
    (h : getLongIdx p.definitions n = some i) :
    (arg_parser_get p n).1 =
      (if (validate_result (p.definitions.getD i default)
            (p.results.getD i default)).1 then some i else none) := by
  unfold arg_parser_get
  rw [h]
  dsimp only
  split <;> rfl

/-! ### Small auxiliary lemmas -/

/-- A fully non-numeric token coerces to integer `0` under `atoi`. -/
theorem atoi_of_no_digits (s : String) (h : intDigitsOf s = []) :
    atoi s = 0 := by
  unfold atoi
  rw [h]
  simp [digitsToNat]

/-- A token `atof` can read nothing from — no digits and no
infinity/NaN form — coerces to `0.0`. -/
theorem atofR_no_conversion (s : String) (h1 : intDigitsOf s = [])
    (h2 : fracDigitsOf s = [])
    (h3 : isInfPrefix
      ((splitSign (s.toList.dropWhile isSpaceChar)).2) = false)
    (h4 : isNanPrefix
      ((splitSign (s.toList.dropWhile isSpaceChar)).2) = false) :
    atofR s = .finite 0 := by
  unfold atofR
  dsimp only
  rw [h3, h4, h1, h2]
  simp

/-- For a non-Flag type the coercion ignores the previous value. -/
theorem coerceValue_indep (ty : ArgType) (h : ty ≠ .flag)
    (o1 o2 : ArgValue) (v : String) :
    coerceValue ty o1 v = coerceValue ty o2 v := by
  cases ty <;> simp [coerceValue] at h ⊢

/-- Result initialisation, per index. -/
theorem getD_map_init (defs : List ArgDef) (i : Nat) (hi : i < defs.length) :
    (defs.map init_result).getD i default =
      init_result (defs.getD i default) := by
  induction defs generalizing i with
  | nil => simp at hi
  | cons d ds ih =>
    cases i with
    | zero => rfl
    | succ k =>
      simp only [List.map_cons, List.getD_cons_succ]
      exact ih k (by simpa using hi)

/-- Unfolding `arg_parser_parse` on success: the token loop succeeded on
`argv[1..]` from the freshly initialised state, and the required check
passed. -/
theorem arg_parser_parse_ok (p : ArgParser) (argv : List String)
    (q : ArgParser) (h : arg_parser_parse p argv = .ok q) :
    parse_args { p with results := p.definitions.map init_result }
        (argv.drop 1) = .ok q ∧
      firstRequiredMissing q.definitions q.results = none := by
  unfold arg_parser_parse at h
  dsimp only at h
  cases hp : parse_args { p with results := p.definitions.map init_result }
      (argv.drop 1) with
  | error e =>
    rw [hp] at h
    simp at h
  | ok p1 =>
    rw [hp] at h
    dsimp only at h
    cases hf : firstRequiredMissing p1.definitions p1.results with
    | some nm =>
      rw [hf] at h
      simp at h
    | none =>
      rw [hf] at h
      simp only [Except.ok.injEq] at h
      subst h
      exact ⟨rfl, hf⟩

/-! ### Accessor value characterisations (with the long name resolving to
index `i` of the registry) -/

theorem get_flag_eq (p : ArgParser) (n : String) (i : Nat)
    (hlong : getLongIdx p.definitions n = some i)
    (hi : i < p.results.length) :
    (arg_parser_get_flag p n).1 =
      (if (validate_result (p.definitions.getD i default)
            (p.results.getD i default)).1 = true then
         (if (p.definitions.getD i default).type = .flag then
            (p.results.getD i default).value.flagVal
          else false)
       else false) := by
  have hfst := get_fst_eq p n i hlong
  unfold arg_parser_get_flag
  dsimp only
  cases hb : (validate_result (p.definitions.getD i default)
      (p.results.getD i default)).1 with
  | false =>
    rw [hb] at hfst
    simp only [Bool.false_eq_true, if_false] at hfst
    rw [hfst]
    simp
  | true =>
    rw [hb] at hfst
    simp only [if_true] at hfst
    rw [hfst]
    dsimp only
    rw [get_definitions, get_results_eq p n i hlong hi, validate_result_value]
    by_cases hty : (p.definitions.getD i default).type = .flag <;>
      (simp only [List.getD_eq_getElem?_getD] at hty; simp [hty])

theorem get_string_eq (p : ArgParser) (n : String) (i : Nat)
    (hlong : getLongIdx p.definitions n = some i)
    (hi : i < p.results.length) :
    (arg_parser_get_string p n).1 =
      (if (validate_result (p.definitions.getD i default)
            (p.results.getD i default)).1 = true then
         (if (p.definitions.getD i default).type = .string then
            (p.results.getD i default).value.stringVal
          else none)
       else none) := by
  have hfst := get_fst_eq p n i hlong
  unfold arg_parser_get_string
  dsimp only
  cases hb : (validate_result (p.definitions.getD i default)
      (p.results.getD i default)).1 with
  | false =>
    rw [hb] at hfst
    simp only [Bool.false_eq_true, if_false] at hfst
    rw [hfst]
    simp
  | true =>
    rw [hb] at hfst
    simp only [if_true] at hfst
    rw [hfst]
    dsimp only
    rw [get_definitions, get_results_eq p n i hlong hi, validate_result_value]
    by_cases hty : (p.definitions.getD i default).type = .string <;>
      (simp only [List.getD_eq_getElem?_getD] at hty; simp [hty])

theorem intFallback_get (p : ArgParser) (n m : String) :
    intFallback (arg_parser_get p n).2 m = intFallback p m := by
  unfold intFallback
  rw [get_definitions]

theorem get_int_eq (p : ArgParser) (n : String) (i : Nat)
    (hlong : getLongIdx p.definitions n = some i)
    (hi : i < p.results.length) :
    (arg_parser_get_int p n).1 =
      (if (validate_result (p.definitions.getD i default)
            (p.results.getD i default)).1 = true ∧
          (p.definitions.getD i default).type = .int then
         (p.results.getD i default).value.intVal
       else intFallback p n) := by
  have hfst := get_fst_eq p n i hlong
  unfold arg_parser_get_int
  dsimp only
  cases hb : (validate_result (p.definitions.getD i default)
      (p.results.getD i default)).1 with
  | false =>
    rw [hb] at hfst
    simp only [Bool.false_eq_true, if_false] at hfst
    rw [hfst]
    dsimp only
    rw [intFallback_get]
    simp
  | true =>
    rw [hb] at hfst
    simp only [if_true] at hfst
    rw [hfst]
    dsimp only
    rw [get_definitions, get_results_eq p n i hlong hi, validate_result_value,
        intFallback_get]
    by_cases hty : (p.definitions.getD i default).type = .int <;>
      (simp only [List.getD_eq_getElem?_getD] at hty; simp [hty])

theorem floatFallback_get (p : ArgParser) (n m : String) :
    floatFallback (arg_parser_get p n).2 m = floatFallback p m := by
  unfold floatFallback
  rw [get_definitions]

theorem get_float_eq (p : ArgParser) (n : String) (i : Nat)
    (hlong : getLongIdx p.definitions n = some i)
    (hi : i < p.results.length) :
    (arg_parser_get_float p n).1 =
      (if (validate_result (p.definitions.getD i default)
            (p.results.getD i default)).1 = true ∧
          (p.definitions.getD i default).type = .float then
         (p.results.getD i default).value.floatVal
       else floatFallback p n) := by
  have hfst := get_fst_eq p n i hlong
  unfold arg_parser_get_float
  dsimp only
  cases hb : (validate_result (p.definitions.getD i default)
      (p.results.getD i default)).1 with
  | false =>
    rw [hb] at hfst
    simp only [Bool.false_eq_true, if_false] at hfst
    rw [hfst]
    dsimp only
    rw [floatFallback_get]
    simp
  | true =>
    rw [hb] at hfst
    simp only [if_true] at hfst
    rw [hfst]
    dsimp only
    rw [get_definitions, get_results_eq p n i hlong hi, validate_result_value,
        floatFallback_get]
    by_cases hty : (p.definitions.getD i default).type = .float <;>
      (simp only [List.getD_eq_getElem?_getD] at hty; simp [hty])

theorem is_set_eq (p : ArgParser) (n : String) (i : Nat)
    (hlong : getLongIdx p.definitions n = some i)
    (hi : i < p.results.length) :
    (arg_parser_is_set p n).1 =
      (if (validate_result (p.definitions.getD i default)
            (p.results.getD i default)).1 = true then
         (p.results.getD i default).is_set
       else false) := by
  have hfst := get_fst_eq p n i hlong
  unfold arg_parser_is_set
  dsimp only
  cases hb : (validate_result (p.definitions.getD i default)
      (p.results.getD i default)).1 with
  | false =>
    rw [hb] at hfst
    simp only [Bool.false_eq_true, if_false] at hfst
    rw [hfst]
    simp
  | true =>
    rw [hb] at hfst
    simp only [if_true] at hfst
    rw [hfst]
    dsimp only
    rw [get_results_eq p n i hlong hi, validate_result_is_set]
    simp

/-! ### Validation-cache invariant under accessor sequences

For a result `i` whose definition carries validator `v` and which starts
unvalidated with a zero call counter, any single accessor call leaves it
either untouched or validated-exactly-once with the verdict of the first
invocation. -/

theorem cache_step (p0 : ArgParser) (i : Nat) (v : Validator)
    (hv : (p0.definitions.getD i default).validator = some v)
    (hi : i < p0.results.length) (q : ArgParser) (op : AccessOp)
    (hd : q.definitions = p0.definitions)
    (hl : q.results.length = p0.results.length)
    (hval : (q.results.getD i default).value = (p0.results.getD i default).value)
    (hstate :
      ((q.results.getD i default).validation_attempted = false ∧
        (q.results.getD i default).validator_calls = 0) ∨
      ((q.results.getD i default).validation_attempted = true ∧
        (q.results.getD i default).validator_calls = 1 ∧
        (q.results.getD i default).is_valid =
          (v.run 0 (p0.results.getD i default).value
            (p0.definitions.getD i default).type).1)) :
    (applyAccess q op).definitions = p0.definitions ∧
    (applyAccess q op).results.length = p0.results.length ∧
    ((applyAccess q op).results.getD i default).value =
      (p0.results.getD i default).value ∧
    ((((applyAccess q op).results.getD i default).validation_attempted = false ∧
       ((applyAccess q op).results.getD i default).validator_calls = 0) ∨
     (((applyAccess q op).results.getD i default).validation_attempted = true ∧
       ((applyAccess q op).results.getD i default).validator_calls = 1 ∧
       ((applyAccess q op).results.getD i default).is_valid =
         (v.run 0 (p0.results.getD i default).value
           (p0.definitions.getD i default).type).1)) ∧
    ((q.results.getD i default).validation_attempted = true →
      ((applyAccess q op).results.getD i default).validation_attempted = true) ∧
    (getLongIdx p0.definitions op.name = some i →
      ((applyAccess q op).results.getD i default).validation_attempted = true) := by
  rw [applyAccess_state]
  refine ⟨by rw [get_definitions, hd], by rw [get_results_length, hl], ?_⟩
  by_cases hgi : getLongIdx q.definitions op.name = some i
  · have hres := get_results_eq q op.name i hgi (by rw [hl]; exact hi)
    rw [hd] at hres
    rcases hstate with ⟨ha, hc⟩ | ⟨ha, hc, hvld⟩
    · rw [validate_result_fresh _ _ v ha hv] at hres
      rw [hres]
      refine ⟨by simpa using hval, Or.inr ⟨rfl, by rw [hc], ?_⟩, ?_, ?_⟩
      · rw [hc, hval]
      · intro _
        rfl
      · intro _
        rfl
    · rw [validate_result_cached _ _ ha] at hres
      rw [hres]
      exact ⟨hval, Or.inr ⟨ha, hc, hvld⟩, fun _ => ha, fun _ => ha⟩
  · have hres := get_results_ne q op.name i hgi
    rw [hres]
    refine ⟨hval, hstate, fun h => h, ?_⟩
    intro htar
    exact absurd (by rw [hd]; exact htar) hgi

theorem cache_fold (p0 : ArgParser) (i : Nat) (v : Validator)
    (hv : (p0.definitions.getD i default).validator = some v)
    (hi : i < p0.results.length) :
    ∀ (ops : List AccessOp) (q : ArgParser),
      q.definitions = p0.definitions →
      q.results.length = p0.results.length →
      (q.results.getD i default).value = (p0.results.getD i default).value →
      (((q.results.getD i default).validation_attempted = false ∧
         (q.results.getD i default).validator_calls = 0) ∨
       ((q.results.getD i default).validation_attempted = true ∧
         (q.results.getD i default).validator_calls = 1 ∧
         (q.results.getD i default).is_valid =
           (v.run 0 (p0.results.getD i default).value
             (p0.definitions.getD i default).type).1)) →
      ((((applyAccesses q ops).results.getD i default).validation_attempted
          = false ∧
        ((applyAccesses q ops).results.getD i default).validator_calls = 0) ∨
       (((applyAccesses q ops).results.getD i default).validation_attempted
          = true ∧
        ((applyAccesses q ops).results.getD i default).validator_calls = 1 ∧
        ((applyAccesses q ops).results.getD i default).is_valid =
          (v.run 0 (p0.results.getD i default).value
            (p0.definitions.getD i default).type).1)) ∧
      ((q.results.getD i default).validation_attempted = true →
        ((applyAccesses q ops).results.getD i default).validation_attempted
          = true) ∧
      ((∃ op ∈ ops, getLongIdx p0.definitions op.name = some i) →
        ((applyAccesses q ops).results.getD i default).validation_attempted
          = true) := by
  intro ops
  induction ops with
  | nil =>
    intro q _ _ _ hstate
    refine ⟨hstate, fun h => h, ?_⟩
    rintro ⟨op, hop, _⟩
    cases hop
  | cons op rest ih =>
    intro q hd hl hval hstate
    have hstep := cache_step p0 i v hv hi q op hd hl hval hstate
    obtain ⟨hd1, hl1, hval1, hstate1, hmono1, htar1⟩ := hstep
    have hrest := ih (applyAccess q op) hd1 hl1 hval1 hstate1
    obtain ⟨hstateF, hmonoF, htarF⟩ := hrest
    have happ : applyAccesses q (op :: rest) =
        applyAccesses (applyAccess q op) rest := rfl
    rw [happ]
    refine ⟨hstateF, ?_, ?_⟩
    · intro hat
      exact hmonoF (hmono1 hat)
    · rintro ⟨op2, hop2, htar2⟩
      rcases List.mem_cons.mp hop2 with rfl | hmem
      · exact hmonoF (htar1 htar2)
      · exact htarF ⟨op2, hmem, htar2⟩

/-! ### Concrete fixtures (registries, validators and parses used by the
counterexamples and witnesses) -/

/-- A validator that always rejects, writing a fixed message — the
specification's own test validator for the default-substitution
property. -/
def exFalseValidator : Validator :=
  ⟨fun _ _ _ => (false, "invalid value")⟩

/-- A validator whose verdict depends on its invocation index (false on
the first call, true on any re-invocation), modelling a validator whose
outcome would differ on re-invocation. -/
def exFlipValidator : Validator :=
  ⟨fun n _ _ => (decide (n ≠ 0), "flip")⟩

/-- Registry: `--count` (Int, default 10) and `--output` (String,
default "output.txt"), both carrying the always-false validator. -/
def exParserCS : ArgParser :=
  let p0 := arg_parser_create
  let p1 := (arg_parser_add_int p0 (some "-n") (some "--count")
    (some "Number of iterations") false 10).getD p0
  let p2 := (arg_parser_add_string p1 (some "-o") (some "--output")
    (some "Output file") false (some "output.txt")).getD p1
  let p3 := (arg_parser_set_validator p2 "--count" exFalseValidator).getD p2
  (arg_parser_set_validator p3 "--output" exFalseValidator).getD p3

/-- `exParserCS` parsed against `prog -n 150 -o file.csv`. -/
def exParsedCS : ArgParser :=
  match arg_parser_parse exParserCS ["prog", "-n", "150", "-o", "file.csv"] with
  | .ok p => p
  | .error _ => arg_parser_create

/-- Registry: `--count` (Int, default 10) with the index-sensitive
validator attached. -/
def exParserFlip : ArgParser :=
  let p0 := arg_parser_create
  let p1 := (arg_parser_add_int p0 (some "-n") (some "--count")
    (some "Number of iterations") false 10).getD p0
  (arg_parser_set_validator p1 "--count" exFlipValidator).getD p1

/-- `exParserFlip` parsed against `prog -n 150`. -/
def exParsedFlip : ArgParser :=
  match arg_parser_parse exParserFlip ["prog", "-n", "150"] with
  | .ok p => p
  | .error _ => arg_parser_create

/-- Registry: `--count` (Int, default 10), no validator. -/
def exParserNoVal : ArgParser :=
  let p0 := arg_parser_create
  (arg_parser_add_int p0 (some "-n") (some "--count")
    (some "Number of iterations") false 10).getD p0

/-- `exParserNoVal` parsed against `prog -n 5`. -/
def exParsedNoVal : ArgParser :=
  match arg_parser_parse exParserNoVal ["prog", "-n", "5"] with
  | .ok p => p
  | .error _ => arg_parser_create

/-- Registry: `--input` (String, required, default NULL), no validator. -/
def exParserReq : ArgParser :=
  let p0 := arg_parser_create
  (arg_parser_add_string p0 (some "-i") (some "--input")
    (some "Input file") true none).getD p0

/-- Registry with a duplicate long name: two `--count` definitions, the
first Int (default 10), the second Float (default 0). -/
def exParserDup : ArgParser :=
  let p0 := arg_parser_create
  let p1 := (arg_parser_add_int p0 (some "-n") (some "--count")
    (some "first") false 10).getD p0
  (arg_parser_add_float p1 (some "-m") (some "--count")
    (some "second") false (.finite 0)).getD p1

/-- `exParserNoVal` parsed through the token prefix `-n 3` only (used to
exhibit the state just before a second `--count` occurrence). -/
def exP1Dup : ArgParser :=
  match parse_args
      { exParserNoVal with
        results := exParserNoVal.definitions.map init_result }
      ["-n", "3"] with
  | .ok p => p
  | .error _ => arg_parser_create

/-! ### Claim theorems -/

/-- C7: for every argument vector containing, at an option position (a
position reached by the token loop, witnessed by `hpre`), a token that
starts with a dash and matches no registered definition by short or long
name, `arg_parser_parse` fails with `UnknownArgument` naming that token —
for every possible remainder `rest`, so no further token is processed. -/
theorem C7_unknown_argument_aborts (p p1 : ArgParser)
    (argv pre rest : List String) (tok : String)
    (hdec : argv.drop 1 = pre ++ tok :: rest)
    (hpre : parse_args
      { p with results := p.definitions.map init_result } pre = .ok p1)
    (hopt : isOptionTok tok = true)
    (hfind : find_definition_idx p.definitions tok = none) :
    arg_parser_parse p argv = .error (.unknownArgument tok) := by
  have hdefs : p1.definitions = p.definitions :=
    parse_args_definitions
      { p with results := p.definitions.map init_result } pre p1 hpre
  unfold arg_parser_parse
  dsimp only
  rw [hdec, parse_args_ok_append
      { p with results := p.definitions.map init_result } pre p1
      (tok :: rest) hpre,
      parse_args_unknown p1 tok rest hopt (by rw [hdefs]; exact hfind)]

/-- C7 witness: parsing `prog -z x` against the `--count`/`--output`
registry fails with `UnknownArgument "-z"`. -/
theorem C7_witness :
    (["prog", "-z", "x"].drop 1 = [] ++ "-z" :: ["x"] ∧
      parse_args
        { exParserCS with results := exParserCS.definitions.map init_result }
        [] = .ok
          { exParserCS with
            results := exParserCS.definitions.map init_result } ∧
      isOptionTok "-z" = true ∧
      find_definition_idx exParserCS.definitions "-z" = none) ∧
    arg_parser_parse exParserCS ["prog", "-z", "x"] =
      .error (.unknownArgument "-z") :=
  ⟨⟨rfl, rfl, by decide, by decide⟩,
    C7_unknown_argument_aborts exParserCS
      { exParserCS with results := exParserCS.definitions.map init_result }
      ["prog", "-z", "x"] [] ["x"] "-z" rfl rfl (by decide) (by decide)⟩

/-- C8: when the token loop reaches an option token that resolves to a
non-Flag definition, then (a) if it is the last token, the parse fails
with `MissingValue` naming the option; and (b) otherwise the immediately
following token is consumed as the option's value: the loop continues on
the remaining tokens with result `i` overwritten by the coerced value and
`is_set` true. -/
theorem C8_missing_value_or_consume (p p1 : ArgParser)
    (argv pre : List String) (tok : String) (i : Nat)
    (hpre : parse_args
      { p with results := p.definitions.map init_result } pre = .ok p1)
    (hopt : isOptionTok tok = true)
    (hfind : find_definition_idx p.definitions tok = some i)
    (hty : (p.definitions.getD i default).type ≠ .flag) :
    (argv.drop 1 = pre ++ [tok] →
      arg_parser_parse p argv = .error (.missingValue tok)) ∧
    (∀ v rest,
      parse_args p1 (tok :: v :: rest) =
        parse_args
          { p1 with
            results := setValueResult p1.results i
              (p.definitions.getD i default).type v } rest ∧
      ((setValueResult p1.results i (p.definitions.getD i default).type
          v).getD i default).is_set = true ∧
      ((setValueResult p1.results i (p.definitions.getD i default).type
          v).getD i default).value =
        coerceValue (p.definitions.getD i default).type
          (p1.results.getD i default).value v) := by
  have hdefs : p1.definitions = p.definitions :=
    parse_args_definitions
      { p with results := p.definitions.map init_result } pre p1 hpre
  have hlen1 : p1.results.length = p.definitions.length := by
    have := parse_args_results_length
      { p with results := p.definitions.map init_result } pre p1 hpre
    simpa using this
  have hi : i < p1.results.length := by
    rw [hlen1]
    exact find_definition_idx_lt p.definitions tok i hfind
  constructor
  · intro hdec
    unfold arg_parser_parse
    dsimp only
    rw [hdec, parse_args_ok_append
        { p with results := p.definitions.map init_result } pre p1
        [tok] hpre,
        parse_args_dangling p1 tok i hopt (by rw [hdefs]; exact hfind)
          (by rw [hdefs]; exact hty)]
  · intro v rest
    refine ⟨?_, ?_, ?_⟩
    · have hty2 : (p1.definitions.getD i default).type
          = (p.definitions.getD i default).type := by rw [hdefs]
      have := parse_args_value_step p1 tok v rest i hopt
        (by rw [hdefs]; exact hfind) (by rw [hdefs]; exact hty)
      rw [hty2] at this
      exact this
    · rw [getD_setValueResult p1.results i i _ v hi, if_pos rfl]
    · rw [getD_setValueResult p1.results i i _ v hi, if_pos rfl]

/-- C8 witness: `prog -o` (option `-o` is the String definition
`--output`, last token) fails with `MissingValue "-o"`; with a following
token the value is consumed. -/
theorem C8_witness :
    (parse_args
        { exParserCS with results := exParserCS.definitions.map init_result }
        [] = .ok
          { exParserCS with
            results := exParserCS.definitions.map init_result } ∧
      isOptionTok "-o" = true ∧
      find_definition_idx exParserCS.definitions "-o" = some 1 ∧
      (exParserCS.definitions.getD 1 default).type ≠ .flag) ∧
    ((["prog", "-o"].drop 1 = [] ++ ["-o"] →
        arg_parser_parse exParserCS ["prog", "-o"] =
          .error (.missingValue "-o")) ∧
      (∀ v rest,
        parse_args
            { exParserCS with
              results := exParserCS.definitions.map init_result }
            ("-o" :: v :: rest) =
          parse_args
            { { exParserCS with
                results := exParserCS.definitions.map init_result } with
              results := setValueResult
                ({ exParserCS with
                   results :=
                     exParserCS.definitions.map init_result }).results 1
                (exParserCS.definitions.getD 1 default).type v } rest ∧
        ((setValueResult
            ({ exParserCS with
               results := exParserCS.definitions.map init_result }).results
            1 (exParserCS.definitions.getD 1 default).type v).getD 1
            default).is_set = true ∧
        ((setValueResult
            ({ exParserCS with
               results := exParserCS.definitions.map init_result }).results
            1 (exParserCS.definitions.getD 1 default).type v).getD 1
            default).value =
          coerceValue (exParserCS.definitions.getD 1 default).type
            (({ exParserCS with
                results :=
                  exParserCS.definitions.map init_result }).results.getD 1
              default).value v)) :=
  ⟨⟨rfl, by decide, by decide, by decide⟩,
    C8_missing_value_or_consume exParserCS
      { exParserCS with results := exParserCS.definitions.map init_result }
      ["prog", "-o"] [] "-o" 1 rfl (by decide) (by decide) (by decide)⟩

/-- C5: a malformed numeric value token for an Int or Float definition
never fails the token loop: the loop always continues past the
option/value pair, the result's `is_set` becomes true, a fully
non-numeric token — one `atoi`/`atof` can read nothing from: no digits
and no infinity/NaN form — coerces to integer 0 / float 0.0, and the
whole parse succeeds whenever the remaining tokens process cleanly and
the required check passes. -/
theorem C5_malformed_numeric_is_zero (p p1 : ArgParser)
    (argv pre rest : List String) (tok v : String) (i : Nat)
    (hdec : argv.drop 1 = pre ++ tok :: v :: rest)
    (hpre : parse_args
      { p with results := p.definitions.map init_result } pre = .ok p1)
    (hopt : isOptionTok tok = true)
    (hfind : find_definition_idx p.definitions tok = some i)
    (hty : (p.definitions.getD i default).type = .int ∨
      (p.definitions.getD i default).type = .float)
    (hmal : intDigitsOf v = [] ∧ fracDigitsOf v = [] ∧
      isInfPrefix ((splitSign (v.toList.dropWhile isSpaceChar)).2) = false ∧
      isNanPrefix ((splitSign (v.toList.dropWhile isSpaceChar)).2) = false) :
    parse_args { p with results := p.definitions.map init_result }
        (argv.drop 1) =
      parse_args
        { p1 with
          results := setValueResult p1.results i
            (p.definitions.getD i default).type v } rest ∧
    ((setValueResult p1.results i (p.definitions.getD i default).type
        v).getD i default).is_set = true ∧
    ((setValueResult p1.results i (p.definitions.getD i default).type
        v).getD i default).value =
      (if (p.definitions.getD i default).type = .int then .int 0
       else .float (.finite 0)) ∧
    (∀ q, parse_args
        { p1 with
          results := setValueResult p1.results i
            (p.definitions.getD i default).type v } rest = .ok q →
      firstRequiredMissing q.definitions q.results = none →
      arg_parser_parse p argv = .ok q) := by
  have hdefs : p1.definitions = p.definitions :=
    parse_args_definitions
      { p with results := p.definitions.map init_result } pre p1 hpre
  have hlen1 : p1.results.length = p.definitions.length := by
    have := parse_args_results_length
      { p with results := p.definitions.map init_result } pre p1 hpre
    simpa using this
  have hi : i < p1.results.length := by
    rw [hlen1]
    exact find_definition_idx_lt p.definitions tok i hfind
  have htyne : (p.definitions.getD i default).type ≠ .flag := by
    rcases hty with h | h <;> rw [h] <;> intro hc <;> cases hc
  have hstep : parse_args
      { p with results := p.definitions.map init_result } (argv.drop 1) =
      parse_args
        { p1 with
          results := setValueResult p1.results i
            (p.definitions.getD i default).type v } rest := by
    rw [hdec, parse_args_ok_append
      { p with results := p.definitions.map init_result } pre p1
      (tok :: v :: rest) hpre]
    have hty2 : (p1.definitions.getD i default).type
        = (p.definitions.getD i default).type := by rw [hdefs]
    have := parse_args_value_step p1 tok v rest i hopt
      (by rw [hdefs]; exact hfind) (by rw [hdefs]; exact htyne)
    rw [hty2] at this
    exact this
  refine ⟨hstep, ?_, ?_, ?_⟩
  · rw [getD_setValueResult p1.results i i _ v hi, if_pos rfl]
  · rw [getD_setValueResult p1.results i i _ v hi, if_pos rfl]
    rcases hty with h | h <;> rw [h] <;> dsimp only [coerceValue]
    · rw [atoi_of_no_digits v hmal.1]
      rfl
    · rw [atofR_no_conversion v hmal.1 hmal.2.1 hmal.2.2.1 hmal.2.2.2]
      rfl
  · intro q hloop hreq
    unfold arg_parser_parse
    dsimp only
    rw [hstep, hloop]
    dsimp only
    rw [hreq]

/-- C5 witness: `prog -n abc` for the validator-free `--count` Int
definition: the loop consumes the pair, stores integer 0 and sets
`is_set`. -/
theorem C5_witness :
    (["prog", "-n", "abc"].drop 1 = [] ++ "-n" :: "abc" :: [] ∧
      parse_args
        { exParserNoVal with
          results := exParserNoVal.definitions.map init_result } [] = .ok
          { exParserNoVal with
            results := exParserNoVal.definitions.map init_result } ∧
      isOptionTok "-n" = true ∧
      find_definition_idx exParserNoVal.definitions "-n" = some 0 ∧
      ((exParserNoVal.definitions.getD 0 default).type = .int ∨
        (exParserNoVal.definitions.getD 0 default).type = .float) ∧
      (intDigitsOf "abc" = [] ∧ fracDigitsOf "abc" = [] ∧
        isInfPrefix
          ((splitSign ("abc".toList.dropWhile isSpaceChar)).2) = false ∧
        isNanPrefix
          ((splitSign ("abc".toList.dropWhile isSpaceChar)).2) = false)) ∧
    (parse_args
        { exParserNoVal with
          results := exParserNoVal.definitions.map init_result }
        (["prog", "-n", "abc"].drop 1) =
      parse_args
        { { exParserNoVal with
            results := exParserNoVal.definitions.map init_result } with
          results := setValueResult
            ({ exParserNoVal with
               results :=
                 exParserNoVal.definitions.map init_result }).results 0
            (exParserNoVal.definitions.getD 0 default).type "abc" } [] ∧
      ((setValueResult
          ({ exParserNoVal with
             results := exParserNoVal.definitions.map init_result }).results
          0 (exParserNoVal.definitions.getD 0 default).type "abc").getD 0
          default).is_set = true ∧
      ((setValueResult
          ({ exParserNoVal with
             results := exParserNoVal.definitions.map init_result }).results
          0 (exParserNoVal.definitions.getD 0 default).type "abc").getD 0
          default).value =
        (if (exParserNoVal.definitions.getD 0 default).type = .int then
          .int 0 else .float (.finite 0)) ∧
      (∀ q, parse_args
          { { exParserNoVal with
              results := exParserNoVal.definitions.map init_result } with
            results := setValueResult
              ({ exParserNoVal with
                 results :=
                   exParserNoVal.definitions.map init_result }).results 0
              (exParserNoVal.definitions.getD 0 default).type "abc" } [] =
            .ok q →
        firstRequiredMissing q.definitions q.results = none →
        arg_parser_parse exParserNoVal ["prog", "-n", "abc"] = .ok q)) :=
  ⟨⟨rfl, rfl, by decide, by decide, by decide, by decide⟩,
    C5_malformed_numeric_is_zero exParserNoVal
      { exParserNoVal with
        results := exParserNoVal.definitions.map init_result }
      ["prog", "-n", "abc"] [] [] "-n" "abc" 0 rfl rfl (by decide)
      (by decide) (by decide) (by decide)⟩

/-- C10: when an option (by short or long name) occurs at an option
position with value token `v` and does not occur again in the remaining
tokens, a successful parse leaves its result holding the coercion of `v`
— the value of the last (rightmost) occurrence, any earlier occurrence
having been overwritten — with `is_set` true. -/
theorem C10_last_occurrence_wins (p p1 q : ArgParser)
    (argv pre post : List String) (tok v : String) (i : Nat)
    (hdec : argv.drop 1 = pre ++ tok :: v :: post)
    (hpre : parse_args
      { p with results := p.definitions.map init_result } pre = .ok p1)
    (hopt : isOptionTok tok = true)
    (hfind : find_definition_idx p.definitions tok = some i)
    (hty : (p.definitions.getD i default).type ≠ .flag)
    (hocc : optOccursIdx p.definitions i post = false)
    (hparse : arg_parser_parse p argv = .ok q) :
    (q.results.getD i default).value =
      coerceValue (p.definitions.getD i default).type
        (p.definitions.getD i default).default_value v ∧
    (q.results.getD i default).is_set = true := by
  obtain ⟨hloop, _⟩ := arg_parser_parse_ok p argv q hparse
  have hdefs : p1.definitions = p.definitions :=
    parse_args_definitions
      { p with results := p.definitions.map init_result } pre p1 hpre
  have hlen1 : p1.results.length = p.definitions.length := by
    have := parse_args_results_length
      { p with results := p.definitions.map init_result } pre p1 hpre
    simpa using this
  have hi : i < p1.results.length := by
    rw [hlen1]
    exact find_definition_idx_lt p.definitions tok i hfind
  rw [hdec, parse_args_ok_append
    { p with results := p.definitions.map init_result } pre p1
    (tok :: v :: post) hpre] at hloop
  have hty2 : (p1.definitions.getD i default).type
      = (p.definitions.getD i default).type := by rw [hdefs]
  have hstep := parse_args_value_step p1 tok v post i hopt
    (by rw [hdefs]; exact hfind) (by rw [hdefs]; exact hty)
  rw [hty2] at hstep
  rw [hstep] at hloop
  have hlen2 :
      (setValueResult p1.results i (p.definitions.getD i default).type
        v).length = p1.definitions.length := by
    rw [length_setValueResult, hlen1, hdefs]
  have hproj := parse_args_proj
    { p1 with
      results := setValueResult p1.results i
        (p.definitions.getD i default).type v } post q i hlen2 hloop
  rw [hdefs] at hproj
  rw [applyOccs_no_occ p.definitions i _ post hocc] at hproj
  rw [getD_setValueResult p1.results i i _ v hi, if_pos rfl] at hproj
  rw [hproj]
  exact ⟨coerceValue_indep _ hty _ _ v, rfl⟩

/-- C10 witness: `prog -n 3 --count 42` on the validator-free `--count`
Int definition: the result holds 42 (the last occurrence), not 3. -/
theorem C10_witness :
    (["prog", "-n", "3", "--count", "42"].drop 1 =
        ["-n", "3"] ++ "--count" :: "42" :: [] ∧
      parse_args
        { exParserNoVal with
          results := exParserNoVal.definitions.map init_result }
        ["-n", "3"] = .ok exP1Dup ∧
      isOptionTok "--count" = true ∧
      find_definition_idx exParserNoVal.definitions "--count" = some 0 ∧
      (exParserNoVal.definitions.getD 0 default).type ≠ .flag ∧
      optOccursIdx exParserNoVal.definitions 0 [] = false ∧
      (arg_parser_parse exParserNoVal
        ["prog", "-n", "3", "--count", "42"]).isOk = true) ∧
    ∀ q, arg_parser_parse exParserNoVal
        ["prog", "-n", "3", "--count", "42"] = .ok q →
      (q.results.getD 0 default).value =
        coerceValue (exParserNoVal.definitions.getD 0 default).type
          (exParserNoVal.definitions.getD 0 default).default_value "42" ∧
      (q.results.getD 0 default).is_set = true :=
  ⟨⟨rfl, rfl, by decide, by decide, by decide, by decide, by decide⟩,
    fun q hq =>
      C10_last_occurrence_wins exParserNoVal exP1Dup q
        ["prog", "-n", "3", "--count", "42"] ["-n", "3"] [] "--count" "42" 0
        rfl rfl (by decide) (by decide) (by decide) (by decide) hq⟩

/-- C6: (a) if the token loop completes but some required definition's
result is unset, the parse fails with `RequiredMissing` naming (the first)
such definition's long name; (b) if every required definition is set the
parse succeeds; (c) any definition whose option never occurs in argv ends
a successful parse holding its default value with `is_set = false`. -/
theorem C6_required_enforcement (p : ArgParser) (argv : List String) :
    (∀ p1, parse_args
        { p with results := p.definitions.map init_result }
        (argv.drop 1) = .ok p1 →
      (∃ j, j < p1.definitions.length ∧
        (p1.definitions.getD j default).required = true ∧
        (p1.results.getD j default).is_set = false) →
      ∃ j2, j2 < p1.definitions.length ∧
        (p1.definitions.getD j2 default).required = true ∧
        (p1.results.getD j2 default).is_set = false ∧
        arg_parser_parse p argv =
          .error (.requiredMissing
            (p1.definitions.getD j2 default).long_name)) ∧
    (∀ p1, parse_args
        { p with results := p.definitions.map init_result }
        (argv.drop 1) = .ok p1 →
      (∀ k, k < p1.definitions.length →
        (p1.definitions.getD k default).required = true →
        (p1.results.getD k default).is_set = true) →
      arg_parser_parse p argv = .ok p1) ∧
    (∀ q i, arg_parser_parse p argv = .ok q →
      i < p.definitions.length →
      optOccursIdx p.definitions i (argv.drop 1) = false →
      (q.results.getD i default).value =
        (p.definitions.getD i default).default_value ∧
      (q.results.getD i default).is_set = false) := by
  have hlenfix : ∀ p1, parse_args
      { p with results := p.definitions.map init_result }
      (argv.drop 1) = .ok p1 → p1.results.length = p1.definitions.length := by
    intro p1 hloop
    have h1 := parse_args_results_length
      { p with results := p.definitions.map init_result } _ p1 hloop
    have h2 := parse_args_definitions
      { p with results := p.definitions.map init_result } _ p1 hloop
    simp only [List.length_map] at h1
    rw [h1, h2]
  refine ⟨?_, ?_, ?_⟩
  · rintro p1 hloop ⟨j, hj, hreq, hset⟩
    obtain ⟨j2, hj2, hr2, hs2, hfrm⟩ :=
      firstRequiredMissing_some p1.definitions p1.results (hlenfix p1 hloop)
        j hj hreq hset
    refine ⟨j2, hj2, hr2, hs2, ?_⟩
    unfold arg_parser_parse
    dsimp only
    rw [hloop]
    dsimp only
    rw [hfrm]
  · intro p1 hloop hall
    have hfrm := firstRequiredMissing_none p1.definitions p1.results
      (hlenfix p1 hloop) hall
    unfold arg_parser_parse
    dsimp only
    rw [hloop]
    dsimp only
    rw [hfrm]
  · intro q i hparse hilt hocc
    obtain ⟨hloop, _⟩ := arg_parser_parse_ok p argv q hparse
    have hproj := parse_args_proj
      { p with results := p.definitions.map init_result } (argv.drop 1) q i
      (by simp) hloop
    rw [applyOccs_no_occ p.definitions i _ (argv.drop 1) hocc] at hproj
    rw [getD_map_init p.definitions i hilt] at hproj
    rw [hproj]
    exact ⟨rfl, rfl⟩

/-- The freshly initialised state of the required-`--input` registry. -/
def exReqP0 : ArgParser :=
  { exParserReq with results := exParserReq.definitions.map init_result }

/-- C6 witness: `prog` with the required `--input` definition fails with
`RequiredMissing --input`. -/
theorem C6_witness :
    (parse_args exReqP0 (["prog"].drop 1) = .ok exReqP0 ∧
      (0 < exReqP0.definitions.length ∧
        (exReqP0.definitions.getD 0 default).required = true ∧
        (exReqP0.results.getD 0 default).is_set = false)) ∧
    (∃ j2, j2 < exReqP0.definitions.length ∧
      (exReqP0.definitions.getD j2 default).required = true ∧
      (exReqP0.results.getD j2 default).is_set = false ∧
      arg_parser_parse exParserReq ["prog"] =
        .error (.requiredMissing
          (exReqP0.definitions.getD j2 default).long_name)) :=
  ⟨⟨rfl, by decide⟩,
    (C6_required_enforcement exParserReq ["prog"]).1 exReqP0 rfl
      ⟨0, by decide⟩⟩

/-- C9: `find_definition` matches a name against the short or the long
name of each definition and returns the first match in registration order
(and finds nothing iff nothing matches); registering a second definition
with an already-used long name is not rejected, and `find` keeps
deterministically returning the first-registered match. -/
theorem C9_find_first_match :
    (∀ (defs : List ArgDef) (name : String) (i : Nat),
      find_definition_idx defs name = some i →
        i < defs.length ∧ matchesName (defs.getD i default) name = true ∧
        ∀ j, j < i → matchesName (defs.getD j default) name = false) ∧
    (∀ (defs : List ArgDef) (name : String),
      find_definition_idx defs name = none ↔
        ∀ j, j < defs.length →
          matchesName (defs.getD j default) name = false) ∧
    (∀ (p : ArgParser) (sn desc : Option String) (ln : String)
        (ty : ArgType) (req : Bool) (dv : ArgValue),
      (add_argument p sn (some ln) desc ty req dv).isSome = true ∧
      (∀ p2 i, add_argument p sn (some ln) desc ty req dv = some p2 →
        find_definition_idx p.definitions ln = some i →
        find_definition_idx p2.definitions ln = some i)) := by
  refine ⟨fun defs name i h => find_definition_idx_first defs name i h,
    fun defs name => find_definition_idx_none_iff defs name, ?_⟩
  intro p sn desc ln ty req dv
  constructor
  · rfl
  · intro p2 i hadd hfind
    unfold add_argument at hadd
    simp only [Option.some.injEq] at hadd
    subst hadd
    exact find_definition_idx_prefix p.definitions _ ln i hfind

/-- C9 witness: in the registry with two `--count` definitions, `find`
returns the first; re-registering `--count` on the single-`--count`
registry succeeds and `find` still returns index 0. -/
theorem C9_witness :
    (find_definition_idx exParserDup.definitions "--count" = some 0 ∧
      (0 < exParserDup.definitions.length ∧
        matchesName (exParserDup.definitions.getD 0 default) "--count"
          = true ∧
        ∀ j, j < 0 →
          matchesName (exParserDup.definitions.getD j default) "--count"
            = false)) ∧
    ((add_argument exParserNoVal (some "-m") (some "--count") (some "dup")
        .float false (.float (.finite 0))).isSome = true) ∧
    (add_argument exParserNoVal (some "-m") (some "--count") (some "dup")
        .float false (.float (.finite 0)) =
      some { exParserNoVal with
        definitions := exParserNoVal.definitions ++
          [⟨some "-m", some "--count", some "dup", .float, false,
            .float (.finite 0), none⟩] } ∧
      find_definition_idx exParserNoVal.definitions "--count" = some 0) ∧
    find_definition_idx
      ({ exParserNoVal with
        definitions := exParserNoVal.definitions ++
          [⟨some "-m", some "--count", some "dup", .float, false,
            .float (.finite 0), none⟩] } : ArgParser).definitions "--count" = some 0 :=
  ⟨⟨by decide,
    C9_find_first_match.1 exParserDup.definitions "--count" 0 (by decide)⟩,
    (C9_find_first_match.2.2 exParserNoVal (some "-m") (some "dup")
      "--count" .float false (.float (.finite 0))).1,
    ⟨rfl, by decide⟩,
    (C9_find_first_match.2.2 exParserNoVal (some "-m") (some "dup")
      "--count" .float false (.float (.finite 0))).2 _ 0 rfl (by decide)⟩

/-- C1 (code bug): at the repository's own documented scenario — a String
definition `--output` with default `"output.txt"` and an always-false
validator, parsed against `-o file.csv` — `arg_parser_get_string` returns
NULL, not the default the documentation promises (the diagnostic is
emitted once, and the raw parsed value is indeed withheld, but the
default is not substituted; only `get_int`/`get_float` fall back to the
default). -/
theorem C1_get_string_null_not_default :
    (arg_parser_get_string exParsedCS "--output").1 = none ∧
    (exParsedCS.definitions.getD 1 default).default_value =
      .str (some "output.txt") ∧
    (exParsedCS.results.getD 1 default).value = .str (some "file.csv") ∧
    (arg_parser_get_string exParsedCS "--output").2.stderr_log =
      ["Validation error for --output: invalid value"] ∧
    (arg_parser_get_int exParsedCS "--count").1 = 10 := by
  refine ⟨by decide, by decide, by decide, by decide, by decide⟩

/-- C2 counterexample: calling the Flag accessor on the Int definition
`--count` (whose validator has not yet run) does return false, but it
consults and mutates validation state: `validation_attempted` flips to
true and the validator is invoked (call counter 0 → 1), contrary to the
claim that a mismatched accessor leaves validation state unchanged and
invokes no validator. -/
theorem C2_counterexample :
    (exParsedCS.definitions.getD 0 default).type = .int ∧
    (exParsedCS.results.getD 0 default).validation_attempted = false ∧
    (exParsedCS.results.getD 0 default).validator_calls = 0 ∧
    (arg_parser_get_flag exParsedCS "--count").1 = false ∧
    ((arg_parser_get_flag exParsedCS
      "--count").2.results.getD 0 default).validation_attempted = true ∧
    ((arg_parser_get_flag exParsedCS
      "--count").2.results.getD 0 default).validator_calls = 1 := by
  refine ⟨by decide, by decide, by decide, by decide, by decide, by decide⟩

/-- C2 (amended): a type-mismatched accessor does return the
type-appropriate zero/empty/false value (for `get_int`/`get_float`, zero
when the `find_definition` fallback resolves to the same, differently
typed definition) — but the lookup does consult validation state and
mutates it: after the call the Result is validation-attempted, the
attached validator having been run by the shared `arg_parser_get`
lookup. -/
theorem C2_mismatch_zero_value_but_validates (p : ArgParser)
    (name : String) (i : Nat)
    (hlong : getLongIdx p.definitions name = some i)
    (hfind : find_definition_idx p.definitions name = some i)
    (hi : i < p.results.length) :
    ((p.definitions.getD i default).type ≠ .flag →
      (arg_parser_get_flag p name).1 = false) ∧
    ((p.definitions.getD i default).type ≠ .string →
      (arg_parser_get_string p name).1 = none) ∧
    ((p.definitions.getD i default).type ≠ .int →
      (arg_parser_get_int p name).1 = 0) ∧
    ((p.definitions.getD i default).type ≠ .float →
      (arg_parser_get_float p name).1 = .finite 0) ∧
    ((arg_parser_get p name).2.results.getD i
      default).validation_attempted = true := by
  refine ⟨?_, ?_, ?_, ?_, ?_⟩
  · intro hty
    rw [get_flag_eq p name i hlong hi]
    rw [if_neg hty]
    split <;> rfl
  · intro hty
    rw [get_string_eq p name i hlong hi]
    rw [if_neg hty]
    split <;> rfl
  · intro hty
    rw [get_int_eq p name i hlong hi]
    have hfb : intFallback p name = 0 := by
      unfold intFallback
      rw [hfind]
      dsimp only
      rw [if_neg hty]
    rw [hfb]
    split
    · rename_i hcon
      exact absurd hcon.2 hty
    · rfl
  · intro hty
    rw [get_float_eq p name i hlong hi]
    have hfb : floatFallback p name = .finite 0 := by
      unfold floatFallback
      rw [hfind]
      dsimp only
      rw [if_neg hty]
    rw [hfb]
    split
    · rename_i hcon
      exact absurd hcon.2 hty
    · rfl
  · rw [get_results_eq p name i hlong hi]
    exact validate_result_attempted _ _

/-- C2 witness: the amended statement at the Int definition `--count`
of the parsed fixture. -/
theorem C2_witness :
    (getLongIdx exParsedCS.definitions "--count" = some 0 ∧
      find_definition_idx exParsedCS.definitions "--count" = some 0 ∧
      0 < exParsedCS.results.length) ∧
    (((exParsedCS.definitions.getD 0 default).type ≠ .flag →
        (arg_parser_get_flag exParsedCS "--count").1 = false) ∧
      ((exParsedCS.definitions.getD 0 default).type ≠ .string →
        (arg_parser_get_string exParsedCS "--count").1 = none) ∧
      ((exParsedCS.definitions.getD 0 default).type ≠ .int →
        (arg_parser_get_int exParsedCS "--count").1 = 0) ∧
      ((exParsedCS.definitions.getD 0 default).type ≠ .float →
        (arg_parser_get_float exParsedCS "--count").1 = .finite 0) ∧
      ((arg_parser_get exParsedCS "--count").2.results.getD 0
        default).validation_attempted = true) :=
  ⟨⟨by decide, by decide, by decide⟩,
    C2_mismatch_zero_value_but_validates exParsedCS "--count" 0 (by decide)
      (by decide) (by decide)⟩

/-- C3 counterexample: with the always-false validator on `--count` and
`-n 150` present in argv, the parse set the Result (`is_set` true in the
stored Result) and the option occurred in argv, yet `arg_parser_is_set`
returns false — the validator's verdict does affect `is_set`, contrary
to the claim. -/
theorem C3_counterexample :
    optOccursIdx exParsedCS.definitions 0
      (["prog", "-n", "150", "-o", "file.csv"].drop 1) = true ∧
    (exParsedCS.results.getD 0 default).is_set = true ∧
    (arg_parser_is_set exParsedCS "--count").1 = false := by
  refine ⟨by decide, by decide, by decide⟩

/-- C3 (amended): after a successful parse, `arg_parser_is_set` returns
the conjunction of the Result's lazily computed validation verdict and
the option's occurrence in argv — true iff the option appeared **and**
the verdict is Valid; in particular, whenever the verdict is Invalid it
returns false even though the option appeared. -/
theorem C3_is_set_verdict_and_occurred (p q : ArgParser)
    (argv : List String) (name : String) (i : Nat)
    (hparse : arg_parser_parse p argv = .ok q)
    (hlong : getLongIdx q.definitions name = some i) :
    (arg_parser_is_set q name).1 =
      ((validate_result (q.definitions.getD i default)
          (q.results.getD i default)).1 &&
        optOccursIdx p.definitions i (argv.drop 1)) ∧
    ((validate_result (q.definitions.getD i default)
        (q.results.getD i default)).1 = false →
      (arg_parser_is_set q name).1 = false) := by
  obtain ⟨hloop, _⟩ := arg_parser_parse_ok p argv q hparse
  have hdefs : q.definitions = p.definitions :=
    parse_args_definitions
      { p with results := p.definitions.map init_result } _ q hloop
  have hlenr : q.results.length = p.definitions.length := by
    have := parse_args_results_length
      { p with results := p.definitions.map init_result } _ q hloop
    simpa using this
  have hilt : i < p.definitions.length := by
    have := getLongIdx_lt q.definitions name i hlong
    rw [hdefs] at this
    exact this
  have hi : i < q.results.length := by
    rw [hlenr]
    exact hilt
  have hproj := parse_args_proj
    { p with results := p.definitions.map init_result } (argv.drop 1) q i
    (by simp) hloop
  rw [getD_map_init p.definitions i hilt] at hproj
  have hset : (q.results.getD i default).is_set =
      optOccursIdx p.definitions i (argv.drop 1) := by
    rw [hproj, applyOccs_is_set p.definitions i _ (argv.drop 1)]
    rfl
  constructor
  · rw [is_set_eq q name i hlong hi]
    cases hb : (validate_result (q.definitions.getD i default)
        (q.results.getD i default)).1
    · simp
    · simpa using hset
  · intro hb
    rw [is_set_eq q name i hlong hi, hb]
    simp

/-- C3 witness: the amended statement at the always-false-validator
fixture parsed from `prog -n 150 -o file.csv`: the `--count` verdict is
Invalid and the option occurred, so `is_set` returns
false = Invalid && occurred. -/
theorem C3_witness :
    (arg_parser_parse exParserCS ["prog", "-n", "150", "-o", "file.csv"] =
        .ok exParsedCS ∧
      getLongIdx exParsedCS.definitions "--count" = some 0) ∧
    ((arg_parser_is_set exParsedCS "--count").1 =
        ((validate_result (exParsedCS.definitions.getD 0 default)
            (exParsedCS.results.getD 0 default)).1 &&
          optOccursIdx exParserCS.definitions 0
            (["prog", "-n", "150", "-o", "file.csv"].drop 1)) ∧
      ((validate_result (exParsedCS.definitions.getD 0 default)
          (exParsedCS.results.getD 0 default)).1 = false →
        (arg_parser_is_set exParsedCS "--count").1 = false)) :=
  ⟨⟨rfl, by decide⟩,
    C3_is_set_verdict_and_occurred exParserCS exParsedCS
      ["prog", "-n", "150", "-o", "file.csv"] "--count" 0 rfl (by decide)⟩

/-- C4: for a Result with an attached validator (starting unvalidated,
as `arg_parser_parse` initialises it), any sequence of accessor calls
invokes the validator at most once; once validation has been attempted
the stored verdict is the first invocation's verdict (invocation index
0), even if a re-invocation would return differently; and if some call
in the sequence targets the Result (its long name resolves there), the
validator has been invoked exactly once. -/
theorem C4_validator_invoked_once (p0 : ArgParser) (i : Nat) (v : Validator)
    (hv : (p0.definitions.getD i default).validator = some v)
    (hi : i < p0.results.length)
    (hatt : (p0.results.getD i default).validation_attempted = false)
    (hcalls : (p0.results.getD i default).validator_calls = 0)
    (ops : List AccessOp) :
    ((applyAccesses p0 ops).results.getD i default).validator_calls ≤ 1 ∧
    (((applyAccesses p0 ops).results.getD i
        default).validation_attempted = true →
      ((applyAccesses p0 ops).results.getD i default).is_valid =
        (v.run 0 (p0.results.getD i default).value
          (p0.definitions.getD i default).type).1) ∧
    ((∃ op ∈ ops, getLongIdx p0.definitions op.name = some i) →
      ((applyAccesses p0 ops).results.getD i
        default).validation_attempted = true ∧
      ((applyAccesses p0 ops).results.getD i default).validator_calls
        = 1) := by
  obtain ⟨hstate, hmono, htar⟩ :=
    cache_fold p0 i v hv hi ops p0 rfl rfl rfl (Or.inl ⟨hatt, hcalls⟩)
  refine ⟨?_, ?_, ?_⟩
  · rcases hstate with ⟨_, hc⟩ | ⟨_, hc, _⟩
    · exact hc ▸ Nat.zero_le 1
    · exact hc ▸ Nat.le_refl 1
  · intro hat
    rcases hstate with ⟨ha, _⟩ | ⟨_, _, hvld⟩
    · rw [hat] at ha
      cases ha
    · exact hvld
  · intro hex
    have hat := htar hex
    refine ⟨hat, ?_⟩
    rcases hstate with ⟨ha, _⟩ | ⟨_, hc, _⟩
    · rw [hat] at ha
      cases ha
    · exact hc

/-- C4 witness: the index-sensitive validator on `--count` (false on
invocation 0, true on any later invocation) under the call sequence
`get_int; get_int; is_set`: invoked exactly once, verdict pinned to the
first invocation. -/
theorem C4_witness :
    ((exParsedFlip.definitions.getD 0 default).validator =
        some exFlipValidator ∧
      0 < exParsedFlip.results.length ∧
      (exParsedFlip.results.getD 0 default).validation_attempted = false ∧
      (exParsedFlip.results.getD 0 default).validator_calls = 0) ∧
    (((applyAccesses exParsedFlip
        [.getInt "--count", .getInt "--count", .isSet "--count"]).results.getD
          0 default).validator_calls ≤ 1 ∧
      (((applyAccesses exParsedFlip
          [.getInt "--count", .getInt "--count",
            .isSet "--count"]).results.getD 0
          default).validation_attempted = true →
        ((applyAccesses exParsedFlip
          [.getInt "--count", .getInt "--count",
            .isSet "--count"]).results.getD 0 default).is_valid =
          (exFlipValidator.run 0 (exParsedFlip.results.getD 0 default).value
            (exParsedFlip.definitions.getD 0 default).type).1) ∧
      ((∃ op ∈ [AccessOp.getInt "--count", AccessOp.getInt "--count",
          AccessOp.isSet "--count"],
          getLongIdx exParsedFlip.definitions op.name = some 0) →
        ((applyAccesses exParsedFlip
          [.getInt "--count", .getInt "--count",
            .isSet "--count"]).results.getD 0
          default).validation_attempted = true ∧
        ((applyAccesses exParsedFlip
          [.getInt "--count", .getInt "--count",
            .isSet "--count"]).results.getD 0 default).validator_calls
          = 1)) :=
  ⟨⟨rfl, by decide, by decide, by decide⟩,
    C4_validator_invoked_once exParsedFlip 0 exFlipValidator rfl (by decide)
      (by decide) (by decide)
      [.getInt "--count", .getInt "--count", .isSet "--count"]⟩

end ProgArgs
